import Mathlib

/-!
Verification development for the onesuite-backend commissions / payouts engine.

The Python sources are shallowly embedded:
* monetary values (`decimal.Decimal`) are modelled as exact rationals, with the
  default decimal context (precision 28 significant digits, `ROUND_HALF_EVEN`)
  applied to the result of every arithmetic operation, exactly as CPython's
  `decimal` module does;
* database rows are records in lists inside an explicit `St` state structure;
* Django's `transaction.atomic` services become functions `... → Except E St`:
  an `Except.error` result means the transaction rolled back and no change
  persisted;
* users are records carrying the fields the services consult
  (`id`, `username`, `is_staff`, membership of the Admins group).
-/

namespace OneSuite

/-! ## Decimal arithmetic (CPython `decimal` default context)

`Decimal` operations in the source (`commissions/services.py`,
`payouts/services.py`) run under the default context: 28 significant digits,
ties resolved to even.  We model a decimal value by the exact rational it
denotes, and each arithmetic operation rounds its exact result to 28
significant digits (`ctxRound`).  `quantize(Decimal('0.01'))` becomes
`quantize2`, rounding to two decimal places with the context rounding
(half-even). -/

/-- Round a rational to the nearest integer, ties to the even neighbour
(`ROUND_HALF_EVEN`, the CPython default). -/
def roundHalfEvenZ (x : ℚ) : ℤ :=
  let n := ⌊x⌋
  let f := x - (n : ℚ)
  if f < 1/2 then n
  else if 1/2 < f then n + 1
  else if n % 2 = 0 then n else n + 1

/-- Round a rational to the nearest integer, ties upward: the "half-up"
rounding named by the specification. -/
def roundHalfUpZ (x : ℚ) : ℤ := ⌊x + 1/2⌋

/-- Round a nonzero rational to `p` significant decimal digits, ties to even.
`Int.log 10 |q|` is the exponent of the leading digit. -/
def roundSig (p : ℕ) (q : ℚ) : ℚ :=
  if q = 0 then 0
  else
    (roundHalfEvenZ (q * (10 : ℚ) ^ ((p : ℤ) - 1 - Int.log 10 |q|)) : ℚ) /
      (10 : ℚ) ^ ((p : ℤ) - 1 - Int.log 10 |q|)

/-- Result coercion of the default decimal context: 28 significant digits. -/
def ctxRound (q : ℚ) : ℚ := roundSig 28 q

/-- `Decimal` addition under the default context. -/
def decAdd (a b : ℚ) : ℚ := ctxRound (a + b)

/-- `Decimal` multiplication under the default context. -/
def decMul (a b : ℚ) : ℚ := ctxRound (a * b)

/-- `Decimal` division under the default context. -/
def decDiv (a b : ℚ) : ℚ := ctxRound (a / b)

/-- `Decimal` subtraction under the default context. -/
def decSub (a b : ℚ) : ℚ := ctxRound (a - b)

/-- `x.quantize(Decimal('0.01'))` under the default context: round to two
decimal places, ties to even. -/
def quantize2 (q : ℚ) : ℚ := (roundHalfEvenZ (q * 100) : ℚ) / 100

/-- `CommissionCalculationService.calculate_base_commission`
(`commissions/services.py`): back out GST when `gst_rate > 0`, apply the
commission rate, quantize to cents. -/
def calculate_base_commission (sale_amount commission_rate gst_rate : ℚ) : ℚ :=
  quantize2
    (decMul
      (if 0 < gst_rate then decDiv sale_amount (decAdd 1 (decDiv gst_rate 100))
       else sale_amount)
      (decDiv commission_rate 100))

/-- `CommissionCalculationService.calculate_override_commission`: same logic
with the override rate. -/
def calculate_override_commission (sale_amount override_rate gst_rate : ℚ) : ℚ :=
  calculate_base_commission sale_amount override_rate gst_rate

/-- The calculation as worded by the specification (§4.2): exact rational
arithmetic throughout, final rounding to two decimal places HALF-UP. -/
def specCalculateCommission (sale_amount commission_rate gst_rate : ℚ) : ℚ :=
  (roundHalfUpZ
    ((if 0 < gst_rate then sale_amount / (1 + gst_rate / 100) else sale_amount) *
      (commission_rate / 100) * 100) : ℚ) / 100

/-! ### Evaluation lemmas for the decimal model -/

lemma roundHalfEvenZ_intCast (n : ℤ) : roundHalfEvenZ (n : ℚ) = n := by
  unfold roundHalfEvenZ
  simp

lemma roundHalfEvenZ_eq_of_lt {x : ℚ} {n : ℤ} (h1 : ⌊x⌋ = n)
    (h2 : x - (n : ℚ) < 1/2) : roundHalfEvenZ x = n := by
  unfold roundHalfEvenZ
  simp only [h1, if_pos h2]

lemma roundHalfEvenZ_eq_of_gt {x : ℚ} {n : ℤ} (h1 : ⌊x⌋ = n)
    (h2 : 1/2 < x - (n : ℚ)) : roundHalfEvenZ x = n + 1 := by
  unfold roundHalfEvenZ
  simp only [h1]
  rw [if_neg (by linarith), if_pos h2]

lemma roundHalfEvenZ_eq_of_tie_even {x : ℚ} {n : ℤ} (h1 : ⌊x⌋ = n)
    (h2 : x - (n : ℚ) = 1/2) (h3 : n % 2 = 0) : roundHalfEvenZ x = n := by
  unfold roundHalfEvenZ
  simp only [h1]
  rw [if_neg (by rw [h2]; norm_num), if_neg (by rw [h2]; norm_num), if_pos h3]

lemma roundHalfEvenZ_eq_of_tie_odd {x : ℚ} {n : ℤ} (h1 : ⌊x⌋ = n)
    (h2 : x - (n : ℚ) = 1/2) (h3 : ¬ n % 2 = 0) : roundHalfEvenZ x = n + 1 := by
  unfold roundHalfEvenZ
  simp only [h1]
  rw [if_neg (by rw [h2]; norm_num), if_neg (by rw [h2]; norm_num), if_neg h3]

/-- A decimal number whose coefficient fits in 28 digits is returned unchanged
by the context rounding: `ctxRound (k / 10^d) = k / 10^d` when `|k| < 10^28`. -/
lemma ctxRound_eq_self {k : ℤ} {d : ℕ} (hk : |k| < 10 ^ 28) {q : ℚ}
    (hq : q = (k : ℚ) / 10 ^ d) : ctxRound q = q := by
  rcases eq_or_ne q 0 with h0 | h0
  · subst h0; unfold ctxRound roundSig; simp
  unfold ctxRound roundSig
  rw [if_neg h0]
  have hqabs : (0 : ℚ) < |q| := abs_pos.mpr h0
  have hb : (1 : ℕ) < 10 := by norm_num
  -- the leading-digit exponent is small enough that scaling clears the denominator
  have hlog : Int.log 10 |q| < (28 : ℤ) - d := by
    rw [← Int.lt_zpow_iff_log_lt hb hqabs]
    have hq10 : |q| = (|k| : ℚ) / 10 ^ d := by
      rw [hq, abs_div, abs_pow, abs_of_nonneg (by norm_num : (0:ℚ) ≤ 10)]
    rw [hq10, div_lt_iff₀ (by positivity)]
    push_cast
    calc (|k| : ℚ) < (10 : ℚ) ^ (28 : ℕ) := by exact_mod_cast hk
    _ = (10 : ℚ) ^ ((28 : ℤ) - d + d) := by
        rw [show (28 : ℤ) - d + d = ((28 : ℕ) : ℤ) by ring, zpow_natCast]
    _ = (10 : ℚ) ^ ((28 : ℤ) - d) * 10 ^ (d : ℕ) := by
        rw [zpow_add₀ (by norm_num : (10:ℚ) ≠ 0), zpow_natCast]
  set s : ℤ := ((28 : ℕ) : ℤ) - 1 - Int.log 10 |q| with hs
  have hsd : (d : ℤ) ≤ s := by rw [hs]; omega
  -- q * 10 ^ s is the integer k * 10 ^ (s - d)
  have hint : q * (10 : ℚ) ^ s = ((k * 10 ^ (s - d).toNat : ℤ) : ℚ) := by
    have ht : (((s - d).toNat : ℤ)) = s - d := Int.toNat_of_nonneg (by omega)
    have hsplit : (10 : ℚ) ^ s = (10 : ℚ) ^ (((s - d).toNat : ℤ)) * (10 : ℚ) ^ ((d : ℕ) : ℤ) := by
      rw [← zpow_add₀ (by norm_num : (10:ℚ) ≠ 0), ht]
      congr 1
      ring
    rw [hq, hsplit, zpow_natCast, zpow_natCast]
    push_cast
    field_simp
    ring
  rw [hint, roundHalfEvenZ_intCast, ← hint, mul_div_assoc,
    div_self (zpow_ne_zero _ (by norm_num : (10:ℚ) ≠ 0)), mul_one]

/-- Evaluate `decDiv` when the exact quotient fits in 28 digits. -/
lemma decDiv_eq (a b v : ℚ) (k : ℤ) (d : ℕ) (h1 : a / b = (k : ℚ) / 10 ^ d)
    (h2 : a / b = v) (hk : |k| < 10 ^ 28) : decDiv a b = v := by
  unfold decDiv
  rw [ctxRound_eq_self hk h1, h2]

/-- Evaluate `decMul` when the exact product fits in 28 digits. -/
lemma decMul_eq (a b v : ℚ) (k : ℤ) (d : ℕ) (h1 : a * b = (k : ℚ) / 10 ^ d)
    (h2 : a * b = v) (hk : |k| < 10 ^ 28) : decMul a b = v := by
  unfold decMul
  rw [ctxRound_eq_self hk h1, h2]

/-- Evaluate `decAdd` when the exact sum fits in 28 digits. -/
lemma decAdd_eq (a b v : ℚ) (k : ℤ) (d : ℕ) (h1 : a + b = (k : ℚ) / 10 ^ d)
    (h2 : a + b = v) (hk : |k| < 10 ^ 28) : decAdd a b = v := by
  unfold decAdd
  rw [ctxRound_eq_self hk h1, h2]

/-- Unfold the calculation on the GST-free path. -/
lemma calc_no_gst (s r : ℚ) :
    calculate_base_commission s r 0 = quantize2 (decMul s (decDiv r 100)) := by
  unfold calculate_base_commission
  norm_num

/-- C7: counterexample.  The quantization in
`CommissionCalculationService.calculate_base_commission` uses the default
`ROUND_HALF_EVEN` of CPython's decimal context, not the half-up rounding the
claim states: at `saleAmount = 5.00`, `rate = 4.90`, `gst = 0` the exact
product is `0.245`; the code returns `0.24`, half-up would give `0.25`. -/
theorem C7_half_up_counterexample :
    calculate_base_commission 5 (49/10) 0 = 6/25 ∧
    specCalculateCommission 5 (49/10) 0 = 1/4 ∧
    calculate_base_commission 5 (49/10) 0 ≠ specCalculateCommission 5 (49/10) 0 := by
  have hcode : calculate_base_commission 5 (49/10) 0 = 6/25 := by
    rw [calc_no_gst]
    rw [decDiv_eq ((49:ℚ)/10) 100 (49/1000) 49 3 (by norm_num) (by norm_num) (by norm_num)]
    rw [decMul_eq 5 ((49:ℚ)/1000) (49/200) 245 3 (by norm_num) (by norm_num) (by norm_num)]
    unfold quantize2
    rw [show (49:ℚ)/200 * 100 = 49/2 by norm_num]
    have hf : ⌊(49:ℚ)/2⌋ = 24 := by rw [Int.floor_eq_iff]; norm_num
    rw [roundHalfEvenZ_eq_of_tie_even hf (by norm_num) (by decide)]
    norm_num
  have hspec : specCalculateCommission 5 (49/10) 0 = 1/4 := by
    unfold specCalculateCommission
    rw [if_neg (lt_irrefl (0:ℚ))]
    unfold roundHalfUpZ
    rw [show (5:ℚ) * ((49/10) / 100) * 100 + 1/2 = ((25:ℤ):ℚ) by norm_num,
      Int.floor_intCast]
    norm_num
  exact ⟨hcode, hspec, by rw [hcode, hspec]; norm_num⟩

/-- C7 (amended): `calculate_base_commission` evaluates the claimed formula
(GST backed out when positive, times `rate/100`) but quantizes to two decimal
places with HALF-EVEN (banker's) rounding, with every intermediate
additionally coerced to 28 significant digits; whenever those intermediates
are exactly representable the result is the half-even rounding of the exact
product, and the two concrete values of the claim do hold:
`calc(1100, 5, gst=10) = 50.00`, `calc(3333.33, 7.77, 0) = 259.00`. -/
theorem C7_calculation_half_even (s r g : ℚ)
    (h1 : ctxRound (g / 100) = g / 100)
    (h2 : ctxRound (1 + g / 100) = 1 + g / 100)
    (h3 : ctxRound (s / (1 + g / 100)) = s / (1 + g / 100))
    (h4 : ctxRound (r / 100) = r / 100)
    (h5 : ctxRound ((if 0 < g then s / (1 + g / 100) else s) * (r / 100)) =
      (if 0 < g then s / (1 + g / 100) else s) * (r / 100)) :
    calculate_base_commission s r g =
      quantize2 ((if 0 < g then s / (1 + g / 100) else s) * (r / 100)) ∧
    calculate_base_commission 1100 5 10 = 50 ∧
    calculate_base_commission (333333/100) (777/100) 0 = 259 := by
  refine ⟨?_, ?_, ?_⟩
  · unfold calculate_base_commission decMul decDiv decAdd
    by_cases hg : 0 < g
    · simp only [if_pos hg] at h5 ⊢
      rw [h1, h2, h3, h4, h5]
    · simp only [if_neg hg] at h5 ⊢
      rw [h4, h5]
  · unfold calculate_base_commission
    rw [if_pos (by norm_num : (0:ℚ) < 10)]
    rw [decDiv_eq 10 100 (1/10) 1 1 (by norm_num) (by norm_num) (by norm_num)]
    rw [decAdd_eq 1 ((1:ℚ)/10) (11/10) 11 1 (by norm_num) (by norm_num) (by norm_num)]
    rw [decDiv_eq 1100 ((11:ℚ)/10) 1000 1000 0 (by norm_num) (by norm_num) (by norm_num)]
    rw [decDiv_eq 5 100 (1/20) 5 2 (by norm_num) (by norm_num) (by norm_num)]
    rw [decMul_eq 1000 ((1:ℚ)/20) 50 50 0 (by norm_num) (by norm_num) (by norm_num)]
    unfold quantize2
    rw [show (50:ℚ) * 100 = ((5000:ℤ):ℚ) by norm_num, roundHalfEvenZ_intCast]
    norm_num
  · rw [calc_no_gst]
    rw [decDiv_eq ((777:ℚ)/100) 100 (777/10000) 777 4 (by norm_num) (by norm_num) (by norm_num)]
    rw [decMul_eq ((333333:ℚ)/100) ((777:ℚ)/10000) (258999741/1000000) 258999741 6
      (by norm_num) (by norm_num) (by norm_num)]
    unfold quantize2
    have hf : ⌊(258999741:ℚ)/1000000 * 100⌋ = 25899 := by
      rw [Int.floor_eq_iff]
      norm_num
    rw [roundHalfEvenZ_eq_of_gt hf (by norm_num)]
    norm_num

/-- Witness for C7: the amended theorem applied at `(5, 4.90, 0)`. -/
theorem C7_calculation_half_even_witness :
    calculate_base_commission 5 (49/10) 0 =
      quantize2 ((if (0:ℚ) < 0 then (5:ℚ) / (1 + 0 / 100) else 5) * ((49/10) / 100)) :=
  (C7_calculation_half_even 5 (49/10) 0
    (ctxRound_eq_self (k := 0) (d := 0) (by norm_num) (by norm_num))
    (ctxRound_eq_self (k := 1) (d := 0) (by norm_num) (by norm_num))
    (ctxRound_eq_self (k := 5) (d := 0) (by norm_num) (by norm_num))
    (ctxRound_eq_self (k := 49) (d := 3) (by norm_num) (by norm_num))
    (ctxRound_eq_self (k := 245) (d := 3) (by norm_num)
      (by rw [if_neg (lt_irrefl (0:ℚ))]; norm_num))).1

/-! ## Data model

Row types mirror the Django models (`commissions/models.py`,
`hierarchy/models.py`, `payouts/models.py`).  Foreign keys are stored as the
referenced primary key (`ℕ`); users are snapshotted in a `users` table holding
the attributes the services read. -/

/-- `Commission.STATE_CHOICES`. -/
inductive CState
  | draft | submitted | approved | paid | rejected
deriving DecidableEq, Repr, Fintype

/-- `Commission.COMMISSION_TYPE_CHOICES`. -/
inductive CType
  | base | override | adjustment
deriving DecidableEq, Repr

/-- `PayoutBatch.Status`. -/
inductive BatchStatus
  | DRAFT | LOCKED | RELEASED | VOID
deriving DecidableEq, Repr

/-- `Payout.Status`. -/
inductive PayoutStatus
  | DRAFT | PROCESSING | PAID | ERROR
deriving DecidableEq, Repr

/-- `PayoutPeriod.Status`. -/
inductive PeriodStatus
  | OPEN | CLOSED
deriving DecidableEq, Repr

/-- The attributes of `auth.User` the services read: identity, username,
`is_staff`, and membership of the `Admins` group
(`groups.filter(name='Admins').exists()`). -/
structure UserR where
  id : ℕ
  username : String
  is_staff : Bool
  in_admins_group : Bool
deriving DecidableEq, Repr

/-- One row of `commissions_commission`. -/
structure CommissionR where
  id : ℕ
  commission_type : CType
  consultant : ℕ
  manager : Option ℕ
  transaction_date : ℤ
  sale_amount : ℚ
  gst_rate : ℚ
  commission_rate : ℚ
  calculated_amount : ℚ
  state : CState
  reference_number : String
  notes : String
  override_level : Option ℕ
  parent_commission : Option ℕ
  adjustment_for : Option ℕ
  created_by : Option ℕ
  approved_by : Option ℕ
  approved_at : Option ℤ
  paid_at : Option ℤ
  rejection_reason : String
deriving DecidableEq, Repr

/-- One row of `commissions_approval` (one-to-one with Commission). -/
structure CommissionApprovalR where
  commission : ℕ
  assigned_approver : Option ℕ
  assigned_role : String
  is_auto_approved : Bool
deriving DecidableEq, Repr

/-- One row of `commissions_approval_history` (append-only).  The approval
record is identified by its commission id (the one-to-one key). -/
structure ApprovalHistoryR where
  approval_commission : ℕ
  action : String
  actor : ℕ
  from_state : CState
  to_state : CState
  notes : String
deriving DecidableEq, Repr

/-- One row of `hierarchy_reporting_line`. -/
structure ReportingLineR where
  consultant : ℕ
  manager : ℕ
  start_date : ℤ
  end_date : Option ℤ
  is_active : Bool
deriving DecidableEq, Repr

/-- One row of `PayoutPeriod` (passed to `create_batch_for_period` as an
object; only `status` and `name` are read). -/
structure PayoutPeriodR where
  id : ℕ
  name : String
  status : PeriodStatus
deriving DecidableEq, Repr

/-- One row of `PayoutBatch`. -/
structure PayoutBatchR where
  id : ℕ
  period : ℕ
  reference_number : String
  run_date : ℤ
  status : BatchStatus
  notes : String
  created_by : ℕ
  released_at : Option ℤ
deriving DecidableEq, Repr

/-- One row of `Payout`. -/
structure PayoutR where
  id : ℕ
  batch : ℕ
  consultant : ℕ
  total_commission : ℚ
  total_adjustment : ℚ
  total_tax : ℚ
  net_amount : ℚ
  status : PayoutStatus
  payment_reference : String
  paid_at : Option ℤ
deriving DecidableEq, Repr

/-- One row of `PayoutLineItem`: links one Commission to one Payout. -/
structure PayoutLineItemR where
  id : ℕ
  payout : ℕ
  commission : ℕ
  amount : ℚ
  description : String
deriving DecidableEq, Repr

/-- One row of `PayoutHistory` (append-only audit log). -/
structure PayoutHistoryR where
  batch : ℕ
  actor : ℕ
  action : String
  notes : String
deriving DecidableEq, Repr

/-- The relational store.  `nextId` supplies fresh primary keys. -/
structure St where
  users : List UserR
  commissions : List CommissionR
  approvals : List CommissionApprovalR
  approvalHistory : List ApprovalHistoryR
  reportingLines : List ReportingLineR
  batches : List PayoutBatchR
  payouts : List PayoutR
  lineItems : List PayoutLineItemR
  payoutHistory : List PayoutHistoryR
  nextId : ℕ
deriving DecidableEq, Repr

/-- The `PayoutError` hierarchy of `payouts/services.py`: permission, state
and validation errors are distinct exception classes. -/
inductive PayoutErr
  | permission (msg : String)
  | state (msg : String)
  | validation (msg : String)
deriving DecidableEq, Repr

/-! ## Payout services (`payouts/services.py`)

Each `@transaction.atomic` service becomes a function returning
`Except PayoutErr _`; an error result models the raised exception with the
transaction rolled back (no state escapes). -/

/-- Human label of a commission type (`get_commission_type_display`). -/
def displayOfType : CType → String
  | CType.base => "Base Commission"
  | CType.override => "Manager Override"
  | CType.adjustment => "Adjustment"

/-- Primary-key lookup of a batch. -/
def findBatch (s : St) (b : ℕ) : Option PayoutBatchR :=
  s.batches.find? (fun x => decide (x.id = b))

/-- Bulk update over the batches table. -/
def mapBatches (s : St) (f : PayoutBatchR → PayoutBatchR) : St :=
  { s with batches := s.batches.map f }

/-- Bulk update over the payouts table. -/
def mapPayouts (s : St) (f : PayoutR → PayoutR) : St :=
  { s with payouts := s.payouts.map f }

/-- Bulk update over the commissions table. -/
def mapCommissions (s : St) (f : CommissionR → CommissionR) : St :=
  { s with commissions := s.commissions.map f }

/-- Append one `PayoutHistory` audit row. -/
def addPayoutHistory (s : St) (b : ℕ) (u : UserR) (action notes : String) : St :=
  { s with payoutHistory := s.payoutHistory ++ [⟨b, u.id, action, notes⟩] }

/-- First-encounter-ordered key deduplication (a Python `dict`'s key order). -/
def dedupFirst : List ℕ → List ℕ
  | [] => []
  | k :: ks => k :: (dedupFirst ks).filter (fun x => decide (¬ x = k))

/-- `Payout.objects.get_or_create(batch=batch, consultant_id=cid, defaults=...)`:
returns the existing Payout for `(batch, consultant)` or inserts a fresh
DRAFT one with zeroed totals. -/
def getOrCreatePayout (s : St) (b k : ℕ) : St × PayoutR :=
  match s.payouts.find? (fun p => decide (p.batch = b ∧ p.consultant = k)) with
  | some p => (s, p)
  | none =>
    let p : PayoutR :=
      ⟨s.nextId, b, k, 0, 0, 0, 0, PayoutStatus.DRAFT, "", none⟩
    ({ s with payouts := s.payouts ++ [p], nextId := s.nextId + 1 }, p)

/-- One turn of the line-item loop: insert the `PayoutLineItem` for
commission `c` and accumulate `total_comm += comm.calculated_amount`. -/
def addLIStep (pid : ℕ) (acc : St × ℚ) (c : CommissionR) : St × ℚ :=
  ({ acc.1 with
      lineItems := acc.1.lineItems ++
        [⟨acc.1.nextId, pid, c.id, c.calculated_amount,
          displayOfType c.commission_type ++ " - " ++ c.reference_number⟩],
      nextId := acc.1.nextId + 1 },
    decAdd acc.2 c.calculated_amount)

/-- The inner loop of `generate_draft_payouts`: create one `PayoutLineItem`
per commission of the consultant's group and accumulate
`total_comm += comm.calculated_amount` (decimal addition). -/
def addLineItems (s : St) (pid : ℕ) (group : List CommissionR) : St × ℚ :=
  group.foldl (addLIStep pid) (s, 0)

/-- Write back a payout row by primary key. -/
def savePayout (s : St) (p : PayoutR) : St :=
  { s with payouts := s.payouts.map (fun q => if q.id = p.id then p else q) }

/-- One iteration of the consultant-group loop of `generate_draft_payouts`. -/
def generateStep (b : ℕ) (eligible : List CommissionR) (acc : St × ℕ) (k : ℕ) :
    St × ℕ :=
  let group := eligible.filter (fun c => decide (c.consultant = k))
  let r1 := getOrCreatePayout acc.1 b k
  let r2 := addLineItems r1.1 r1.2.id group
  let tc := decAdd r1.2.total_commission r2.2
  let net := decSub (decAdd tc r1.2.total_adjustment) r1.2.total_tax
  (savePayout r2.1 { r1.2 with total_commission := tc, net_amount := net },
    acc.2 + 1)

/-- The eligible pool: commissions in state `approved` with no existing
`PayoutLineItem` (`payout_line_item__isnull=True`). -/
def eligiblePool (s : St) : List CommissionR :=
  s.commissions.filter
    (fun c => decide (c.state = CState.approved ∧
      ¬ ∃ li ∈ s.lineItems, li.commission = c.id))

/-- `PayoutCalculationService.generate_draft_payouts`: find the eligible
pool, group it by consultant, get-or-create one Payout per consultant,
link each eligible commission by a fresh line item and update the payout
totals.  Returns the number of payouts processed. -/
def generate_draft_payouts (s : St) (b : ℕ) : Except PayoutErr (St × ℕ) :=
  match findBatch s b with
  | none => .error (.validation "batch does not exist")
  | some batch =>
    if ¬ batch.status = BatchStatus.DRAFT then
      .error (.state "Can only generate payouts for DRAFT batches.")
    else
      let eligible := eligiblePool s
      if eligible.isEmpty then .ok (s, 0)
      else
        .ok ((dedupFirst (eligible.map (fun c => c.consultant))).foldl
          (generateStep b eligible) (s, 0))

/-- `PayoutCalculationService.create_batch_for_period`: refuse CLOSED
periods, insert a DRAFT batch (reference string supplied by the caller,
standing for the timestamp-plus-random reference built in the code),
generate draft payouts, and log a CREATE history row.  Returns the new
batch's id. -/
def create_batch_for_period (s : St) (period : PayoutPeriodR) (created_by : UserR)
    (run_date : ℤ) (notes reference : String) : Except PayoutErr (St × ℕ) :=
  if period.status = PeriodStatus.CLOSED then
    .error (.validation "Cannot create batch for a closed period.")
  else
    let bid := s.nextId
    let batch : PayoutBatchR :=
      ⟨bid, period.id, reference, run_date, BatchStatus.DRAFT, notes,
        created_by.id, none⟩
    let s1 : St := { s with batches := s.batches ++ [batch], nextId := s.nextId + 1 }
    match generate_draft_payouts s1 bid with
    | .error e => .error e
    | .ok r =>
      .ok (addPayoutHistory r.1 bid created_by "CREATE"
        ("Created batch " ++ reference), bid)

/-- `PayoutLifecycleService.lock_batch`: DRAFT and non-empty only. -/
def lock_batch (s : St) (b : ℕ) (u : UserR) : Except PayoutErr St :=
  match findBatch s b with
  | none => .error (.validation "batch does not exist")
  | some batch =>
    if ¬ batch.status = BatchStatus.DRAFT then
      .error (.state "Cannot lock batch in non-DRAFT state.")
    else if ¬ ∃ p ∈ s.payouts, p.batch = b then
      .error (.validation "Cannot lock an empty batch.")
    else
      .ok (addPayoutHistory
        (mapBatches s (fun x =>
          if x.id = b then { x with status := BatchStatus.LOCKED } else x))
        b u "LOCK" "Batch Locked. Ready for processing.")

/-- Does line item `li` belong to batch `b` (join `payout__batch=b`)? -/
def liInBatch (s : St) (b : ℕ) (li : PayoutLineItemR) : Bool :=
  s.payouts.any (fun p => decide (p.id = li.payout ∧ p.batch = b))

/-- `PayoutLifecycleService.release_batch`: LOCKED batches only; set the
batch RELEASED with `released_at`, bulk-update its payouts to PAID and the
commissions referenced by its line items to `paid` (queryset `.update`,
which bypasses model validation), and log a RELEASE row. -/
def release_batch (s : St) (b : ℕ) (u : UserR) (now : ℤ) : Except PayoutErr St :=
  match findBatch s b with
  | none => .error (.validation "batch does not exist")
  | some batch =>
    if ¬ batch.status = BatchStatus.LOCKED then
      .error (.state "Batch must be LOCKED before releasing.")
    else
      let s1 : St := mapBatches s (fun x =>
        if x.id = b then
          { x with status := BatchStatus.RELEASED, released_at := some now }
        else x)
      let s2 : St := mapPayouts s1 (fun p =>
        if p.batch = b then
          { p with status := PayoutStatus.PAID, paid_at := some now }
        else p)
      let cids := (s2.lineItems.filter (liInBatch s2 b)).map
        (fun li => li.commission)
      let s3 : St := mapCommissions s2 (fun c =>
        if c.id ∈ cids then
          { c with state := CState.paid, paid_at := some now }
        else c)
      .ok (addPayoutHistory s3 b u "RELEASE"
        "Batch Released. Commissions marked as PAID.")

/-- `PayoutLifecycleService.void_batch`: anything but RELEASED may be
voided; the batch is kept (status VOID), its line items are deleted to free
the commissions, payout and batch rows stay for audit. -/
def void_batch (s : St) (b : ℕ) (u : UserR) : Except PayoutErr St :=
  match findBatch s b with
  | none => .error (.validation "batch does not exist")
  | some batch =>
    if batch.status = BatchStatus.RELEASED then
      .error (.state "Cannot void a RELEASED batch (must reverse transactions manually).")
    else
      let s1 : St := mapBatches s (fun x =>
        if x.id = b then { x with status := BatchStatus.VOID } else x)
      let deleted := (s1.lineItems.filter (liInBatch s1 b)).length
      let kept := s1.lineItems.filter (fun li => !liInBatch s1 b li)
      let s2 : St := { s1 with lineItems := kept }
      .ok (addPayoutHistory s2 b u "VOID"
        ("Batch Voided. " ++ toString deleted ++ " commissions released back to pool."))

/-! ### Helper lemmas about lists and the generate-payouts fold -/

lemma countP_and_partition {α : Type} (p q : α → Bool) (l : List α) :
    l.countP (fun a => p a && q a) + l.countP (fun a => p a && !q a) = l.countP p := by
  induction l with
  | nil => simp
  | cons a l ih =>
    simp only [List.countP_cons]
    cases hp : p a <;> cases hq : q a <;> simp [hp, hq] <;> omega

lemma sum_countP_filter_le {α κ : Type} [DecidableEq κ] (f : α → κ) (p : α → Bool) :
    ∀ (keys : List κ) (l : List α), keys.Nodup →
      ((keys.map (fun k => (l.filter (fun a => decide (f a = k))).countP p)).sum
        ≤ l.countP p) := by
  intro keys
  induction keys with
  | nil => intro l _; simp
  | cons k ks ih =>
    intro l hnd
    obtain ⟨hk, hks⟩ := List.nodup_cons.mp hnd
    simp only [List.map_cons, List.sum_cons]
    have htail : ∀ k' ∈ ks,
        (l.filter (fun a => decide (f a = k'))).countP p
          = ((l.filter (fun a => !decide (f a = k))).filter
              (fun a => decide (f a = k'))).countP p := by
      intro k' hk'
      have hne : k' ≠ k := fun h => hk (h ▸ hk')
      congr 1
      rw [List.filter_filter]
      refine (List.filter_congr ?_)
      intro a _
      by_cases h : f a = k'
      · simp [h, hne]
      · simp [h]
    have hmap : (ks.map (fun k' => (l.filter (fun a => decide (f a = k'))).countP p))
        = (ks.map (fun k' => ((l.filter (fun a => !decide (f a = k))).filter
            (fun a => decide (f a = k'))).countP p)) :=
      List.map_congr_left htail
    calc (l.filter (fun a => decide (f a = k))).countP p +
          (ks.map (fun k' => (l.filter (fun a => decide (f a = k'))).countP p)).sum
        ≤ (l.filter (fun a => decide (f a = k))).countP p +
          (l.filter (fun a => !decide (f a = k))).countP p := by
          rw [hmap]
          exact Nat.add_le_add_left (ih _ hks) _
      _ = l.countP p := by
          rw [List.countP_filter, List.countP_filter]
          exact countP_and_partition p (fun a => decide (f a = k)) l

lemma mem_dedupFirst {a : ℕ} : ∀ {l : List ℕ}, a ∈ dedupFirst l ↔ a ∈ l := by
  intro l
  induction l with
  | nil => simp [dedupFirst]
  | cons k ks ih =>
    simp only [dedupFirst, List.mem_cons, List.mem_filter]
    constructor
    · rintro (rfl | ⟨h1, _⟩)
      · exact Or.inl rfl
      · exact Or.inr (ih.mp h1)
    · rintro (rfl | h)
      · exact Or.inl rfl
      · by_cases hak : a = k
        · exact Or.inl hak
        · exact Or.inr ⟨ih.mpr h, by simp [hak]⟩

lemma nodup_dedupFirst : ∀ (l : List ℕ), (dedupFirst l).Nodup := by
  intro l
  induction l with
  | nil => simp [dedupFirst]
  | cons k ks ih =>
    refine List.nodup_cons.mpr ⟨?_, ih.filter _⟩
    intro hmem
    rw [List.mem_filter] at hmem
    simp at hmem

/-- Every table except payouts / line items / `nextId` is untouched. -/
def TablesEqExceptPayout (s t : St) : Prop :=
  s.users = t.users ∧ s.commissions = t.commissions ∧ s.approvals = t.approvals ∧
  s.approvalHistory = t.approvalHistory ∧ s.reportingLines = t.reportingLines ∧
  s.batches = t.batches ∧ s.payoutHistory = t.payoutHistory

lemma tablesEq_refl (s : St) : TablesEqExceptPayout s s :=
  ⟨rfl, rfl, rfl, rfl, rfl, rfl, rfl⟩

lemma tablesEq_trans {a b c : St} (h1 : TablesEqExceptPayout a b)
    (h2 : TablesEqExceptPayout b c) : TablesEqExceptPayout a c := by
  obtain ⟨x1, x2, x3, x4, x5, x6, x7⟩ := h1
  obtain ⟨y1, y2, y3, y4, y5, y6, y7⟩ := h2
  exact ⟨x1.trans y1, x2.trans y2, x3.trans y3, x4.trans y4, x5.trans y5,
    x6.trans y6, x7.trans y7⟩

/-- Autoincrement well-formedness of the payouts table: every primary key is
below the id counter and keys are pairwise distinct. -/
def PayoutsWF (s : St) : Prop :=
  (∀ p ∈ s.payouts, p.id < s.nextId) ∧ (s.payouts.map (fun p => p.id)).Nodup

/-- Primary key `pid` is allocated and every payout row carrying it belongs
to consultant `y`. -/
def payoutIdHasConsultant (s : St) (pid y : ℕ) : Prop :=
  pid < s.nextId ∧ ∀ p ∈ s.payouts, p.id = pid → p.consultant = y

lemma getOrCreatePayout_spec (s : St) (b k : ℕ) (hwf : PayoutsWF s) :
    TablesEqExceptPayout (getOrCreatePayout s b k).1 s ∧
    (getOrCreatePayout s b k).1.lineItems = s.lineItems ∧
    PayoutsWF (getOrCreatePayout s b k).1 ∧
    s.nextId ≤ (getOrCreatePayout s b k).1.nextId ∧
    (getOrCreatePayout s b k).2.consultant = k ∧
    (getOrCreatePayout s b k).2 ∈ (getOrCreatePayout s b k).1.payouts ∧
    payoutIdHasConsultant (getOrCreatePayout s b k).1 (getOrCreatePayout s b k).2.id k ∧
    (∀ x y, payoutIdHasConsultant s x y →
      payoutIdHasConsultant (getOrCreatePayout s b k).1 x y) := by
  unfold getOrCreatePayout
  cases hfind : s.payouts.find? (fun p => decide (p.batch = b ∧ p.consultant = k)) with
  | some p =>
    have hmem : p ∈ s.payouts := List.mem_of_find?_eq_some hfind
    have hpk : p.batch = b ∧ p.consultant = k := by
      have h2 := List.find?_some hfind
      simpa using h2
    refine ⟨tablesEq_refl s, rfl, hwf, le_refl _, hpk.2, hmem,
      ⟨hwf.1 p hmem, ?_⟩, fun x y h => h⟩
    intro q hq hid
    have hqp : q = p := List.inj_on_of_nodup_map hwf.2 hq hmem hid
    rw [hqp, hpk.2]
  | none =>
    have hfreshmem : ∀ a ∈ s.payouts.map (fun q => q.id), a < s.nextId := by
      intro a ha
      obtain ⟨q, hq, rfl⟩ := List.mem_map.mp ha
      exact hwf.1 q hq
    refine ⟨⟨rfl, rfl, rfl, rfl, rfl, rfl, rfl⟩, rfl, ⟨?_, ?_⟩, Nat.le_succ _,
      rfl, ?_, ⟨Nat.lt_succ_self _, ?_⟩, ?_⟩
    · intro q hq
      rcases List.mem_append.mp hq with h | h
      · exact Nat.lt_trans (hwf.1 q h) (Nat.lt_succ_self _)
      · rw [List.mem_singleton.mp h]
        exact Nat.lt_succ_self _
    · show ((s.payouts ++
          [(⟨s.nextId, b, k, 0, 0, 0, 0, PayoutStatus.DRAFT, "", none⟩ : PayoutR)]).map
            (fun q => q.id)).Nodup
      rw [List.map_append]
      refine List.nodup_append.mpr ⟨hwf.2, List.nodup_singleton _, ?_⟩
      intro a ha hb
      rw [List.map_singleton, List.mem_singleton] at hb
      exact absurd hb (Nat.ne_of_lt (hfreshmem a ha))
    · exact List.mem_append.mpr (Or.inr (List.mem_singleton.mpr rfl))
    · intro q hq hid
      rcases List.mem_append.mp hq with h | h
      · exact absurd hid (Nat.ne_of_lt (hwf.1 q h))
      · rw [List.mem_singleton.mp h]
    · intro x y hxy
      refine ⟨Nat.lt_trans hxy.1 (Nat.lt_succ_self _), ?_⟩
      intro q hq hid
      rcases List.mem_append.mp hq with h | h
      · exact hxy.2 q h hid
      · rw [List.mem_singleton.mp h] at hid ⊢
        exact absurd hid.symm (Nat.ne_of_lt hxy.1)

lemma savePayout_spec (s : St) (p : PayoutR) :
    TablesEqExceptPayout (savePayout s p) s ∧
    (savePayout s p).lineItems = s.lineItems ∧
    (savePayout s p).nextId = s.nextId ∧
    (PayoutsWF s → PayoutsWF (savePayout s p)) ∧
    (∀ x y, payoutIdHasConsultant s x y →
      (∀ q ∈ s.payouts, q.id = p.id → q.consultant = p.consultant) →
      payoutIdHasConsultant (savePayout s p) x y) := by
  unfold savePayout
  have hids : ((s.payouts.map (fun q => if q.id = p.id then p else q)).map
      (fun q => q.id)) = s.payouts.map (fun q => q.id) := by
    rw [List.map_map]
    refine List.map_congr_left ?_
    intro q _
    by_cases h : q.id = p.id
    · simp [Function.comp, h]
    · simp [Function.comp, h]
  refine ⟨⟨rfl, rfl, rfl, rfl, rfl, rfl, rfl⟩, rfl, rfl, ?_, ?_⟩
  · intro hwf
    constructor
    · intro q hq
      obtain ⟨r, hr, hrq⟩ := List.mem_map.mp hq
      show q.id < s.nextId
      by_cases h : r.id = p.id
      · rw [if_pos h] at hrq
        rw [← hrq, ← h]
        exact hwf.1 r hr
      · rw [if_neg h] at hrq
        rw [← hrq]
        exact hwf.1 r hr
    · show (((s.payouts.map (fun q => if q.id = p.id then p else q)).map
        (fun q => q.id))).Nodup
      rw [hids]
      exact hwf.2
  · intro x y hxy hagree
    refine ⟨hxy.1, ?_⟩
    intro q hq hid
    obtain ⟨r, hr, hrq⟩ := List.mem_map.mp hq
    by_cases h : r.id = p.id
    · rw [if_pos h] at hrq
      rw [← hrq] at hid ⊢
      have h1 : r.consultant = y := hxy.2 r hr (h.trans hid)
      have h2 : r.consultant = p.consultant := hagree r hr h
      rw [← h2, h1]
    · rw [if_neg h] at hrq
      rw [← hrq] at hid ⊢
      exact hxy.2 r hr hid

lemma addLineItems_foldl (pid : ℕ) (group : List CommissionR) :
    ∀ (acc : St × ℚ),
      TablesEqExceptPayout (group.foldl (addLIStep pid) acc).1 acc.1 ∧
      (group.foldl (addLIStep pid) acc).1.payouts = acc.1.payouts ∧
      acc.1.nextId ≤ (group.foldl (addLIStep pid) acc).1.nextId ∧
      ∃ E, (group.foldl (addLIStep pid) acc).1.lineItems = acc.1.lineItems ++ E ∧
        E.map (fun li => li.commission) = group.map (fun c => c.id) ∧
        (∀ li ∈ E, li.payout = pid) := by
  induction group with
  | nil =>
    intro acc
    exact ⟨tablesEq_refl _, rfl, le_refl _, [], by simp, rfl, by simp⟩
  | cons c cs ih =>
    intro acc
    rw [List.foldl_cons]
    obtain ⟨h1, h2, h3, E, hE1, hE2, hE3⟩ := ih (addLIStep pid acc c)
    have hstepT : TablesEqExceptPayout (addLIStep pid acc c).1 acc.1 :=
      ⟨rfl, rfl, rfl, rfl, rfl, rfl, rfl⟩
    refine ⟨tablesEq_trans h1 hstepT, h2.trans rfl, le_trans (Nat.le_succ _) h3,
      ⟨acc.1.nextId, pid, c.id, c.calculated_amount,
        displayOfType c.commission_type ++ " - " ++ c.reference_number⟩ :: E,
      ?_, ?_, ?_⟩
    · rw [hE1]
      show acc.1.lineItems ++ [_] ++ E = _
      rw [List.append_assoc, List.singleton_append]
    · simp [hE2]
    · intro li hli
      rcases List.mem_cons.mp hli with rfl | h
      · rfl
      · exact hE3 li h

lemma generateStep_spec (b : ℕ) (elig : List CommissionR) (acc : St × ℕ) (k : ℕ)
    (hwf : PayoutsWF acc.1) :
    TablesEqExceptPayout (generateStep b elig acc k).1 acc.1 ∧
    PayoutsWF (generateStep b elig acc k).1 ∧
    acc.1.nextId ≤ (generateStep b elig acc k).1.nextId ∧
    (∀ x y, payoutIdHasConsultant acc.1 x y →
      payoutIdHasConsultant (generateStep b elig acc k).1 x y) ∧
    ∃ E, (generateStep b elig acc k).1.lineItems = acc.1.lineItems ++ E ∧
      E.map (fun li => li.commission) =
        (elig.filter (fun c => decide (c.consultant = k))).map (fun c => c.id) ∧
      (∀ li ∈ E, payoutIdHasConsultant (generateStep b elig acc k).1 li.payout k) := by
  obtain ⟨hgT, hgLI, hgWF, hgN, hgCons, hgMem, hgPid, hgPres⟩ :=
    getOrCreatePayout_spec acc.1 b k hwf
  set r1 := getOrCreatePayout acc.1 b k with hr1
  set G := elig.filter (fun c => decide (c.consultant = k)) with hG
  obtain ⟨haT, haP, haN, E, hE1, hE2, hE3⟩ := addLineItems_foldl r1.2.id G (r1.1, 0)
  set r2 := G.foldl (addLIStep r1.2.id) (r1.1, 0) with hr2
  set p' : PayoutR :=
    { r1.2 with
        total_commission := decAdd r1.2.total_commission r2.2,
        net_amount := decSub (decAdd (decAdd r1.2.total_commission r2.2)
          r1.2.total_adjustment) r1.2.total_tax } with hp'
  have hstep : (generateStep b elig acc k).1 = savePayout r2.1 p' := rfl
  -- payoutIdHasConsultant is preserved by the line-item loop
  have haPres : ∀ x y, payoutIdHasConsultant r1.1 x y →
      payoutIdHasConsultant r2.1 x y := by
    intro x y h
    exact ⟨Nat.lt_of_lt_of_le h.1 haN, by rw [haP]; exact h.2⟩
  have haWF : PayoutsWF r2.1 := by
    refine ⟨?_, by rw [haP]; exact hgWF.2⟩
    intro p hp
    rw [haP] at hp
    exact Nat.lt_of_lt_of_le (hgWF.1 p hp) haN
  have hagree : ∀ q ∈ r2.1.payouts, q.id = p'.id → q.consultant = p'.consultant := by
    intro q hq hid
    rw [haP] at hq
    have : q.consultant = k := hgPid.2 q hq hid
    rw [this, hp']
    exact hgCons.symm
  obtain ⟨hsT, hsLI, hsN, hsWF, hsPres⟩ := savePayout_spec r2.1 p'
  have hr2Pid : payoutIdHasConsultant r2.1 r1.2.id k := haPres _ _ hgPid
  have hfinalPid : payoutIdHasConsultant (savePayout r2.1 p') r1.2.id k :=
    hsPres _ _ hr2Pid hagree
  rw [hstep]
  refine ⟨tablesEq_trans hsT (tablesEq_trans haT hgT), hsWF haWF,
    le_trans hgN (le_trans haN (le_of_eq hsN.symm)), ?_, E, ?_, hE2, ?_⟩
  · intro x y h
    exact hsPres _ _ (haPres _ _ (hgPres _ _ h)) hagree
  · rw [hsLI, hE1]
    show r1.1.lineItems ++ E = acc.1.lineItems ++ E
    rw [hgLI]
  · intro li hli
    rw [hE3 li hli]
    exact hfinalPid

lemma countP_eq_of_map_comm {E : List PayoutLineItemR} {ids : List ℕ}
    (h : E.map (fun li => li.commission) = ids) (x : ℕ) :
    E.countP (fun li => decide (li.commission = x)) =
      ids.countP (fun i => decide (i = x)) := by
  rw [← h, List.countP_map]
  rfl

lemma generateFold_spec (b : ℕ) (elig : List CommissionR) :
    ∀ (keys : List ℕ) (acc : St × ℕ), PayoutsWF acc.1 →
      TablesEqExceptPayout (keys.foldl (generateStep b elig) acc).1 acc.1 ∧
      PayoutsWF (keys.foldl (generateStep b elig) acc).1 ∧
      acc.1.nextId ≤ (keys.foldl (generateStep b elig) acc).1.nextId ∧
      (∀ x y, payoutIdHasConsultant acc.1 x y →
        payoutIdHasConsultant (keys.foldl (generateStep b elig) acc).1 x y) ∧
      ∃ E, (keys.foldl (generateStep b elig) acc).1.lineItems =
          acc.1.lineItems ++ E ∧
        (∀ x : ℕ, E.countP (fun li => decide (li.commission = x)) =
          (keys.map (fun k => ((elig.filter (fun c => decide (c.consultant = k))).countP
            (fun c => decide (c.id = x))))).sum) ∧
        (∀ li ∈ E, ∃ c ∈ elig, li.commission = c.id ∧
          payoutIdHasConsultant (keys.foldl (generateStep b elig) acc).1
            li.payout c.consultant) := by
  intro keys
  induction keys with
  | nil =>
    intro acc hwf
    exact ⟨tablesEq_refl _, hwf, le_refl _, fun x y h => h, [], by simp, by simp,
      by simp⟩
  | cons k ks ih =>
    intro acc hwf
    rw [List.foldl_cons]
    obtain ⟨hsT, hsWF, hsN, hsPres, E1, hE1, hE1map, hE1pid⟩ :=
      generateStep_spec b elig acc k hwf
    obtain ⟨hfT, hfWF, hfN, hfPres, E2, hF1, hF2, hF3⟩ :=
      ih (generateStep b elig acc k) hsWF
    refine ⟨tablesEq_trans hfT hsT, hfWF, le_trans hsN hfN,
      fun x y h => hfPres x y (hsPres x y h), E1 ++ E2, ?_, ?_, ?_⟩
    · rw [hF1, hE1, List.append_assoc]
    · intro x
      rw [List.countP_append, List.map_cons, List.sum_cons]
      congr 1
      · exact countP_eq_of_map_comm hE1map x |>.trans
          (by rw [List.countP_map]; rfl)
      · exact hF2 x
    · intro li hli
      rcases List.mem_append.mp hli with h | h
      · -- created in this step: commission comes from the consultant-k group
        have hmem : li.commission ∈
            (elig.filter (fun c => decide (c.consultant = k))).map (fun c => c.id) := by
          rw [← hE1map]
          exact List.mem_map.mpr ⟨li, h, rfl⟩
        obtain ⟨c, hc, hcid⟩ := List.mem_map.mp hmem
        have hcK : c.consultant = k := by
          have := List.mem_filter.mp hc
          simpa using this.2
        refine ⟨c, (List.mem_filter.mp hc).1, hcid.symm, ?_⟩
        rw [hcK]
        exact hfPres _ _ (hE1pid li h)
      · obtain ⟨c, hc, h1, h2⟩ := hF3 li h
        exact ⟨c, hc, h1, h2⟩

lemma countP_le_one_of_nodup {l : List ℕ} (h : l.Nodup) (x : ℕ) :
    l.countP (fun i => decide (i = x)) ≤ 1 := by
  induction l with
  | nil => simp
  | cons a l ih =>
    obtain ⟨ha, hl⟩ := List.nodup_cons.mp h
    rw [List.countP_cons]
    by_cases hax : a = x
    · subst hax
      have h0 : l.countP (fun i => decide (i = a)) = 0 :=
        List.countP_eq_zero.mpr (fun i hi => by
          simp only [decide_eq_true_eq]
          exact fun he => ha (he ▸ hi))
      simp [h0]
    · simp only [hax, decide_False]
      simpa using ih hl

lemma exists_pos_of_sum_pos {l : List ℕ} {g : ℕ → ℕ}
    (h : 0 < (l.map g).sum) : ∃ k ∈ l, 0 < g k := by
  induction l with
  | nil => simp at h
  | cons a l ih =>
    rw [List.map_cons, List.sum_cons] at h
    by_cases ha : 0 < g a
    · exact ⟨a, List.mem_cons_self a l, ha⟩
    · have : g a = 0 := Nat.eq_zero_of_not_pos ha
      rw [this, Nat.zero_add] at h
      obtain ⟨k, hk, hgk⟩ := ih h
      exact ⟨k, List.mem_cons_of_mem a hk, hgk⟩

lemma sum_le_of_mem {l : List ℕ} {g : ℕ → ℕ} {k : ℕ} (hk : k ∈ l) :
    g k ≤ (l.map g).sum := by
  induction l with
  | nil => simp at hk
  | cons a l ih =>
    rw [List.map_cons, List.sum_cons]
    rcases List.mem_cons.mp hk with rfl | h
    · exact Nat.le_add_right _ _
    · exact Nat.le_trans (ih h) (Nat.le_add_left _ _)

/-- Whole-run specification of `generate_draft_payouts`: tables other than
payouts / line items are untouched, and the new line items are exactly one
per eligible commission, grouped by consultant, each linked to a payout row
of that commission's consultant. -/
lemma generate_spec (s : St) (b : ℕ) (hwf : PayoutsWF s) :
    match generate_draft_payouts s b with
    | .error _ => True
    | .ok r =>
      TablesEqExceptPayout r.1 s ∧ PayoutsWF r.1 ∧ s.nextId ≤ r.1.nextId ∧
      ∃ E, r.1.lineItems = s.lineItems ++ E ∧
        (∀ x : ℕ, E.countP (fun li => decide (li.commission = x)) =
          ((dedupFirst ((eligiblePool s).map (fun c => c.consultant))).map
            (fun k => (((eligiblePool s).filter
              (fun c => decide (c.consultant = k))).countP
                (fun c => decide (c.id = x))))).sum) ∧
        (∀ li ∈ E, ∃ c ∈ eligiblePool s, li.commission = c.id ∧
          payoutIdHasConsultant r.1 li.payout c.consultant) := by
  unfold generate_draft_payouts
  cases hfb : findBatch s b with
  | none => exact trivial
  | some batch =>
    dsimp only
    by_cases hst : ¬ batch.status = BatchStatus.DRAFT
    · rw [if_pos hst]
      exact trivial
    · rw [if_neg hst]
      by_cases hempty : (eligiblePool s).isEmpty
      · rw [if_pos hempty]
        have hnil : eligiblePool s = [] := List.isEmpty_iff.mp hempty
        refine ⟨tablesEq_refl s, hwf, le_refl _, [], by simp, ?_, by simp⟩
        intro x
        rw [hnil]
        simp [dedupFirst]
      · rw [if_neg hempty]
        obtain ⟨h1, h2, h3, _h4, E, h5, h6, h7⟩ := generateFold_spec b (eligiblePool s)
          (dedupFirst ((eligiblePool s).map (fun c => c.consultant))) (s, 0) hwf
        exact ⟨h1, h2, h3, E, h5, h6, h7⟩

/-- The ids of the eligible pool are distinct when commission ids are. -/
lemma eligible_ids_nodup {s : St}
    (hn : (s.commissions.map (fun c => c.id)).Nodup) :
    ((eligiblePool s).map (fun c => c.id)).Nodup :=
  hn.sublist ((List.filter_sublist _).map _)

/-- An eligible commission has no line item yet. -/
lemma eligible_unlinked {s : St} {c : CommissionR} (hc : c ∈ eligiblePool s) :
    s.lineItems.countP (fun li => decide (li.commission = c.id)) = 0 := by
  have h := (List.mem_filter.mp hc).2
  simp only [decide_eq_true_eq] at h
  refine List.countP_eq_zero.mpr ?_
  intro li hli
  simp only [decide_eq_true_eq]
  exact fun he => h.2 ⟨li, hli, he⟩

/-- Invariant preservation and fresh-links-only for one generate run. -/
lemma generate_preserves (s : St) (b : ℕ)
    (hn : (s.commissions.map (fun c => c.id)).Nodup) (hw : PayoutsWF s)
    (hinv : ∀ x : ℕ, s.lineItems.countP (fun li => decide (li.commission = x)) ≤ 1) :
    match generate_draft_payouts s b with
    | .error _ => True
    | .ok r =>
      (∀ x : ℕ, r.1.lineItems.countP (fun li => decide (li.commission = x)) ≤ 1) ∧
      (∀ li ∈ r.1.lineItems, li ∈ s.lineItems ∨
        s.lineItems.countP (fun z => decide (z.commission = li.commission)) = 0) := by
  have hspec := generate_spec s b hw
  cases hr : generate_draft_payouts s b with
  | error e => exact trivial
  | ok r =>
    rw [hr] at hspec
    obtain ⟨hT, hWF, hN, E, hE, hcnt, hfresh⟩ := hspec
    constructor
    · intro x
      rw [hE, List.countP_append]
      by_cases hpos : 0 < E.countP (fun li => decide (li.commission = x))
      · -- some commission with id x was linked by this run: it was eligible
        rw [hcnt x] at hpos
        obtain ⟨k, _, hk⟩ := exists_pos_of_sum_pos hpos
        obtain ⟨c, hcf, hcx⟩ := List.countP_pos_iff.mp hk
        have hcelig : c ∈ eligiblePool s := (List.mem_filter.mp hcf).1
        simp only [decide_eq_true_eq] at hcx
        have h0 : s.lineItems.countP (fun li => decide (li.commission = x)) = 0 := by
          rw [← hcx]
          exact eligible_unlinked hcelig
        have hsum : E.countP (fun li => decide (li.commission = x)) ≤ 1 := by
          rw [hcnt x]
          exact Nat.le_trans
            (sum_countP_filter_le (fun c => c.consultant)
              (fun c => decide (c.id = x)) _ (eligiblePool s)
              (nodup_dedupFirst _))
            (by
              have := eligible_ids_nodup hn
              have h2 := countP_le_one_of_nodup this x
              rw [List.countP_map] at h2
              exact h2)
        omega
      · have h0 : E.countP (fun li => decide (li.commission = x)) = 0 :=
          Nat.eq_zero_of_not_pos hpos
        rw [h0]
        have := hinv x
        omega
    · intro li hli
      rw [hE] at hli
      rcases List.mem_append.mp hli with h | h
      · exact Or.inl h
      · obtain ⟨c, hc, hcid, _⟩ := hfresh li h
        refine Or.inr ?_
        rw [hcid]
        exact eligible_unlinked hc

/-- The settlement invariant: no commission is referenced by more than one
line item. -/
def SettlementInv (s : St) : Prop :=
  ∀ x : ℕ, s.lineItems.countP (fun li => decide (li.commission = x)) ≤ 1

/-- A successful generate run started from a DRAFT batch that exists. -/
lemma generate_ok_batch (s : St) (b : ℕ) :
    ∀ r, generate_draft_payouts s b = .ok r →
      ∃ batch, findBatch s b = some batch ∧ batch.status = BatchStatus.DRAFT := by
  unfold generate_draft_payouts
  cases hfb : findBatch s b with
  | none =>
    intro r h
    exact Except.noConfusion h
  | some batch =>
    intro r h
    dsimp only at h
    by_cases hst : ¬ batch.status = BatchStatus.DRAFT
    · rw [if_pos hst] at h
      exact Except.noConfusion h
    · exact ⟨batch, rfl, not_not.mp hst⟩

/-- C1: every payout operation preserves settlement exclusivity (each
commission is referenced by at most one `PayoutLineItem`), and
`generate_draft_payouts` only ever creates line items for commissions that
had none. -/
theorem C1_settlement_exclusivity (s : St)
    (hn : (s.commissions.map (fun c => c.id)).Nodup)
    (hw : PayoutsWF s) (hinv : SettlementInv s) :
    (∀ (period : PayoutPeriodR) (u : UserR) (rd : ℤ) (nt ref : String),
      match create_batch_for_period s period u rd nt ref with
      | .ok r => SettlementInv r.1
      | .error _ => True) ∧
    (∀ b : ℕ,
      match generate_draft_payouts s b with
      | .error _ => True
      | .ok r => SettlementInv r.1 ∧
          ∀ li ∈ r.1.lineItems, li ∈ s.lineItems ∨
            s.lineItems.countP (fun z => decide (z.commission = li.commission)) = 0) ∧
    (∀ (b : ℕ) (u : UserR),
      match lock_batch s b u with
      | .ok s' => SettlementInv s'
      | .error _ => True) ∧
    (∀ (b : ℕ) (u : UserR) (now : ℤ),
      match release_batch s b u now with
      | .ok s' => SettlementInv s'
      | .error _ => True) ∧
    (∀ (b : ℕ) (u : UserR),
      match void_batch s b u with
      | .ok s' => SettlementInv s'
      | .error _ => True) := by
  refine ⟨?_, ?_, ?_, ?_, ?_⟩
  · -- create_batch_for_period: inserting the batch changes no commissions,
    -- line items or payouts, so the generate run preserves the invariant
    intro period u rd nt ref
    unfold create_batch_for_period
    by_cases hcl : period.status = PeriodStatus.CLOSED
    · rw [if_pos hcl]
      exact trivial
    · rw [if_neg hcl]
      dsimp only
      set s1 : St := { s with
        batches := s.batches ++
          [⟨s.nextId, period.id, ref, rd, BatchStatus.DRAFT, nt, u.id, none⟩],
        nextId := s.nextId + 1 } with hs1
      have hw1 : PayoutsWF s1 := by
        refine ⟨?_, hw.2⟩
        intro p hp
        exact Nat.lt_trans (hw.1 p hp) (Nat.lt_succ_self _)
      have hpres := generate_preserves s1 s.nextId hn hw1 hinv
      cases hg : generate_draft_payouts s1 s.nextId with
      | error e => exact trivial
      | ok r =>
        rw [hg] at hpres
        exact hpres.1
  · intro b
    exact generate_preserves s b hn hw hinv
  · -- lock_batch never touches line items
    intro b u
    unfold lock_batch
    cases hfb : findBatch s b with
    | none => exact trivial
    | some batch =>
      dsimp only
      by_cases hst : ¬ batch.status = BatchStatus.DRAFT
      · rw [if_pos hst]
        exact trivial
      · rw [if_neg hst]
        by_cases hemp : ¬ ∃ p ∈ s.payouts, p.batch = b
        · rw [if_pos hemp]
          exact trivial
        · rw [if_neg hemp]
          exact hinv
  · -- release_batch never touches line items
    intro b u now
    unfold release_batch
    cases hfb : findBatch s b with
    | none => exact trivial
    | some batch =>
      dsimp only
      by_cases hst : ¬ batch.status = BatchStatus.LOCKED
      · rw [if_pos hst]
        exact trivial
      · rw [if_neg hst]
        exact hinv
  · -- void_batch deletes line items, which can only lower reference counts
    intro b u
    unfold void_batch
    cases hfb : findBatch s b with
    | none => exact trivial
    | some batch =>
      dsimp only
      by_cases hst : batch.status = BatchStatus.RELEASED
      · rw [if_pos hst]
        exact trivial
      · rw [if_neg hst]
        intro x
        exact Nat.le_trans ((List.filter_sublist _).countP_le _) (hinv x)

/-- C6: a second `generate_draft_payouts` run against the same DRAFT batch
with an unchanged pool returns the state unchanged with zero payouts
processed — no new line items, no total changed, no commission
re-processed. -/
theorem C6_generate_idempotent (s : St) (b : ℕ) (hw : PayoutsWF s) :
    match generate_draft_payouts s b with
    | .ok r => generate_draft_payouts r.1 b = .ok (r.1, 0)
    | .error _ => True := by
  have hspec := generate_spec s b hw
  cases hr : generate_draft_payouts s b with
  | error e => exact trivial
  | ok r =>
    rw [hr] at hspec
    obtain ⟨hT, hWF, hN, E, hE, hcnt, _⟩ := hspec
    obtain ⟨batch, hfb, hdraft⟩ := generate_ok_batch s b r hr
    have hbatches : r.1.batches = s.batches := hT.2.2.2.2.2.1
    have hcomm : r.1.commissions = s.commissions := hT.2.1
    show generate_draft_payouts r.1 b = .ok (r.1, 0)
    unfold generate_draft_payouts
    have hfb2 : findBatch r.1 b = some batch := by
      unfold findBatch at hfb ⊢
      rw [hbatches]
      exact hfb
    rw [hfb2]
    dsimp only
    rw [if_neg (not_not.mpr hdraft)]
    have hpool : eligiblePool r.1 = [] := by
      refine List.filter_eq_nil_iff.mpr ?_
      intro c hc
      simp only [decide_eq_true_eq, not_and, not_not]
      intro happr
      by_contra hnolink
      rw [not_exists] at hnolink
      -- c would still be eligible, but the first run linked every eligible commission
      have hcs : c ∈ s.commissions := hcomm ▸ hc
      have hlinkS : ¬ ∃ li ∈ s.lineItems, li.commission = c.id := by
        rintro ⟨li, hli, hlic⟩
        exact hnolink li ⟨by rw [hE]; exact List.mem_append.mpr (Or.inl hli), hlic⟩
      have hcelig : c ∈ eligiblePool s := by
        refine List.mem_filter.mpr ⟨hcs, ?_⟩
        simp only [decide_eq_true_eq]
        exact ⟨happr, hlinkS⟩
      have hkey : c.consultant ∈
          dedupFirst ((eligiblePool s).map (fun z => z.consultant)) :=
        mem_dedupFirst.mpr (List.mem_map.mpr ⟨c, hcelig, rfl⟩)
      have hterm : 0 < ((eligiblePool s).filter
          (fun z => decide (z.consultant = c.consultant))).countP
            (fun z => decide (z.id = c.id)) := by
        refine List.countP_pos_iff.mpr ⟨c, ?_, by simp⟩
        exact List.mem_filter.mpr ⟨hcelig, by simp⟩
      have hEpos : 0 < E.countP (fun li => decide (li.commission = c.id)) := by
        rw [hcnt c.id]
        exact Nat.lt_of_lt_of_le hterm
          (sum_le_of_mem
            (g := fun k => ((eligiblePool s).filter
              (fun z => decide (z.consultant = k))).countP
                (fun z => decide (z.id = c.id))) hkey)
      obtain ⟨li, hliE, hlic⟩ := List.countP_pos_iff.mp hEpos
      simp only [decide_eq_true_eq] at hlic
      exact hnolink li ⟨by rw [hE]; exact List.mem_append.mpr (Or.inr hliE), hlic⟩
    rw [hpool]
    rfl

lemma any_congr_mem {α : Type} {l : List α} {p q : α → Bool}
    (h : ∀ a ∈ l, p a = q a) : l.any p = l.any q := by
  induction l with
  | nil => rfl
  | cons a t ih =>
    simp [h a (List.mem_cons_self a t), List.any_cons,
      ih (fun x hx => h x (List.mem_cons_of_mem a hx))]

lemma eq_of_countP_le_one {α : Type} {l : List α} {p : α → Bool}
    (h : l.countP p ≤ 1) {a b : α} (ha : a ∈ l) (hb : b ∈ l)
    (hpa : p a = true) (hpb : p b = true) : a = b := by
  have ha' : a ∈ l.filter p := List.mem_filter.mpr ⟨ha, hpa⟩
  have hb' : b ∈ l.filter p := List.mem_filter.mpr ⟨hb, hpb⟩
  rw [List.countP_eq_length_filter] at h
  cases hf : l.filter p with
  | nil =>
    rw [hf] at ha'
    exact absurd ha' (List.not_mem_nil a)
  | cons x xs =>
    rw [hf] at h ha' hb'
    rw [List.length_cons] at h
    have hxs : xs = [] := List.eq_nil_of_length_eq_zero (by omega)
    subst hxs
    rw [List.mem_singleton] at ha' hb'
    rw [ha', hb']

/-- C2: `release_batch` fails with the state error unless the batch is
LOCKED; on success the batch is RELEASED with `released_at` stamped, every
payout of the batch is PAID with `paid_at` stamped, and every commission
referenced by the batch's line items is `paid` with `paid_at` stamped.  The
whole operation is one `Except` computation standing for one database
transaction: an error result carries no partial state. -/
theorem C2_release_atomic (s : St) (b : ℕ) (u : UserR) (now : ℤ)
    (batch : PayoutBatchR) (hfb : findBatch s b = some batch) :
    match release_batch s b u now with
    | .error e => ¬ batch.status = BatchStatus.LOCKED ∧
        e = .state "Batch must be LOCKED before releasing."
    | .ok s' =>
        batch.status = BatchStatus.LOCKED ∧
        (∀ x ∈ s'.batches, x.id = b →
          x.status = BatchStatus.RELEASED ∧ x.released_at = some now) ∧
        (∀ p ∈ s'.payouts, p.batch = b →
          p.status = PayoutStatus.PAID ∧ p.paid_at = some now) ∧
        (∀ c ∈ s'.commissions,
          (∃ li ∈ s.lineItems, li.commission = c.id ∧ liInBatch s b li = true) →
          c.state = CState.paid ∧ c.paid_at = some now) := by
  unfold release_batch
  rw [hfb]
  dsimp only
  by_cases hst : ¬ batch.status = BatchStatus.LOCKED
  · rw [if_pos hst]
    exact ⟨hst, rfl⟩
  · rw [if_neg hst]
    refine ⟨not_not.mp hst, ?_, ?_, ?_⟩
    · intro x hx hid
      obtain ⟨x0, _, hx0⟩ := List.mem_map.mp hx
      by_cases h : x0.id = b
      · rw [if_pos h] at hx0
        rw [← hx0]
        exact ⟨rfl, rfl⟩
      · rw [if_neg h] at hx0
        rw [← hx0] at hid
        exact absurd hid h
    · intro p hp hbp
      obtain ⟨p0, _, hp0⟩ := List.mem_map.mp hp
      by_cases h : p0.batch = b
      · rw [if_pos h] at hp0
        rw [← hp0]
        exact ⟨rfl, rfl⟩
      · rw [if_neg h] at hp0
        rw [← hp0] at hbp
        exact absurd hbp h
    · intro c hc hlink
      obtain ⟨li, hli, hlic, hlib⟩ := hlink
      set s2 := mapPayouts (mapBatches s (fun x =>
        if x.id = b then
          { x with status := BatchStatus.RELEASED, released_at := some now }
        else x)) (fun p =>
        if p.batch = b then
          { p with status := PayoutStatus.PAID, paid_at := some now }
        else p) with hs2
      set cids := (s2.lineItems.filter (liInBatch s2 b)).map
        (fun z => z.commission) with hcids
      obtain ⟨c0, hc0, hcc0⟩ := List.mem_map.mp hc
      -- the mapped payouts keep their ids and batches, so the batch join
      -- computed after the payout update agrees with the original one
      have hli2 : ∀ z, liInBatch s2 b z = liInBatch s b z := by
        intro z
        rw [hs2]
        unfold liInBatch mapPayouts mapBatches
        rw [List.any_map]
        refine any_congr_mem ?_
        intro p _
        simp only [Function.comp_apply]
        by_cases h : p.batch = b
        · rw [if_pos h]
        · rw [if_neg h]
      have hid : c.id = c0.id := by
        by_cases h : c0.id ∈ cids
        · rw [if_pos h] at hcc0
          rw [← hcc0]
        · rw [if_neg h] at hcc0
          rw [← hcc0]
      have hmemc : c0.id ∈ cids := by
        rw [hcids]
        refine List.mem_map.mpr ⟨li, ?_, ?_⟩
        · refine List.mem_filter.mpr ⟨hli, ?_⟩
          rw [hli2 li]
          exact hlib
        · rw [hlic, hid]
      rw [if_pos hmemc] at hcc0
      rw [← hcc0]
      exact ⟨rfl, rfl⟩

/-- C3 (amended): `void_batch` succeeds exactly when status is not
RELEASED (DRAFT, LOCKED, or an already-VOID batch, which the code re-voids
successfully); on success the batch is VOID, commissions are untouched
(`s'.commissions = s.commissions`, so a previously approved commission
stays `approved`), batch and payout rows are retained, and every commission
previously linked to the batch has zero line items left. -/
theorem C3_void_frees_commissions (s : St) (b : ℕ) (u : UserR)
    (batch : PayoutBatchR) (hfb : findBatch s b = some batch)
    (hinv : SettlementInv s) :
    match void_batch s b u with
    | .error e => batch.status = BatchStatus.RELEASED ∧
        e = .state "Cannot void a RELEASED batch (must reverse transactions manually)."
    | .ok s' =>
        ¬ batch.status = BatchStatus.RELEASED ∧
        (∀ x ∈ s'.batches, x.id = b → x.status = BatchStatus.VOID) ∧
        s'.commissions = s.commissions ∧
        s'.payouts = s.payouts ∧
        s'.batches.map (fun x => x.id) = s.batches.map (fun x => x.id) ∧
        (∀ li ∈ s.lineItems, liInBatch s b li = true →
          s'.lineItems.countP
            (fun z => decide (z.commission = li.commission)) = 0) := by
  unfold void_batch
  rw [hfb]
  dsimp only
  by_cases hst : batch.status = BatchStatus.RELEASED
  · rw [if_pos hst]
    exact ⟨hst, rfl⟩
  · rw [if_neg hst]
    set s1 := mapBatches s (fun x =>
      if x.id = b then { x with status := BatchStatus.VOID } else x) with hs1
    have hli1 : ∀ z, liInBatch s1 b z = liInBatch s b z := fun z => rfl
    refine ⟨hst, ?_, rfl, rfl, ?_, ?_⟩
    · intro x hx hid
      obtain ⟨x0, _, hx0⟩ := List.mem_map.mp hx
      by_cases h : x0.id = b
      · rw [if_pos h] at hx0
        rw [← hx0]
      · rw [if_neg h] at hx0
        rw [← hx0] at hid
        exact absurd hid h
    · rw [hs1]
      unfold mapBatches
      show (List.map _ (List.map _ s.batches)) = _
      rw [List.map_map]
      refine List.map_congr_left ?_
      intro x _
      simp only [Function.comp_apply]
      by_cases h : x.id = b
      · rw [if_pos h]
      · rw [if_neg h]
    · intro li hli hlib
      refine List.countP_eq_zero.mpr ?_
      intro z hz
      simp only [decide_eq_true_eq]
      intro hzc
      replace hz : z ∈ s1.lineItems.filter (fun w => !liInBatch s1 b w) := hz
      rw [List.mem_filter] at hz
      obtain ⟨hzs, hzkeep⟩ := hz
      -- z survived the deletion, so it is not in the batch; but it shares
      -- li's commission, and the invariant forces z = li, which is in the batch
      have hzli : z = li := by
        refine eq_of_countP_le_one (hinv li.commission) hzs hli ?_ ?_
        · simp [hzc]
        · simp
      rw [hzli, hli1, hlib] at hzkeep
      simp at hzkeep

/-! ### Sample rows and states used by the witnesses -/

def sampleUser : UserR := ⟨1, "alice", false, false⟩

/-- A state holding one DRAFT batch and nothing else. -/
def sampleStateA : St :=
  { users := [sampleUser], commissions := [], approvals := [],
    approvalHistory := [], reportingLines := [],
    batches := [⟨2, 1, "PAY-A", 0, BatchStatus.DRAFT, "", 1, none⟩],
    payouts := [], lineItems := [], payoutHistory := [], nextId := 3 }

/-- A state holding one LOCKED batch with one payout. -/
def sampleStateB : St :=
  { users := [sampleUser], commissions := [], approvals := [],
    approvalHistory := [], reportingLines := [],
    batches := [⟨2, 1, "PAY-B", 0, BatchStatus.LOCKED, "", 1, none⟩],
    payouts := [⟨3, 2, 1, 0, 0, 0, 0, PayoutStatus.DRAFT, "", none⟩],
    lineItems := [], payoutHistory := [], nextId := 4 }

/-- A state holding one batch that is already VOID. -/
def sampleStateV : St :=
  { users := [sampleUser], commissions := [], approvals := [],
    approvalHistory := [], reportingLines := [],
    batches := [⟨2, 1, "PAY-V", 0, BatchStatus.VOID, "", 1, none⟩],
    payouts := [], lineItems := [], payoutHistory := [], nextId := 3 }

/-- Witness for C1: the settlement invariant after voiding the sample
batch. -/
theorem C1_settlement_exclusivity_witness :
    (match void_batch sampleStateA 2 sampleUser with
     | .ok s' => SettlementInv s'
     | .error _ => True) :=
  (C1_settlement_exclusivity sampleStateA (by decide) ⟨by decide, by decide⟩
    (fun x => by simp [sampleStateA])).2.2.2.2 2 sampleUser

/-- Witness for C2: releasing the LOCKED sample batch. -/
theorem C2_release_atomic_witness :
    (match release_batch sampleStateB 2 sampleUser 5 with
     | .error e => ¬ (⟨2, 1, "PAY-B", 0, BatchStatus.LOCKED, "", 1, none⟩ :
          PayoutBatchR).status = BatchStatus.LOCKED ∧
        e = .state "Batch must be LOCKED before releasing."
     | .ok s' =>
        (⟨2, 1, "PAY-B", 0, BatchStatus.LOCKED, "", 1, none⟩ :
          PayoutBatchR).status = BatchStatus.LOCKED ∧
        (∀ x ∈ s'.batches, x.id = 2 →
          x.status = BatchStatus.RELEASED ∧ x.released_at = some 5) ∧
        (∀ p ∈ s'.payouts, p.batch = 2 →
          p.status = PayoutStatus.PAID ∧ p.paid_at = some 5) ∧
        (∀ c ∈ s'.commissions,
          (∃ li ∈ sampleStateB.lineItems, li.commission = c.id ∧
            liInBatch sampleStateB 2 li = true) →
          c.state = CState.paid ∧ c.paid_at = some 5)) :=
  C2_release_atomic sampleStateB 2 sampleUser 5
    ⟨2, 1, "PAY-B", 0, BatchStatus.LOCKED, "", 1, none⟩ rfl

/-- C3: counterexample.  The claim says `void_batch` succeeds exactly on
DRAFT or LOCKED batches; the code only rejects RELEASED ones, so voiding an
already-VOID batch succeeds as well. -/
theorem C3_void_counterexample :
    findBatch sampleStateV 2 =
      some ⟨2, 1, "PAY-V", 0, BatchStatus.VOID, "", 1, none⟩ ∧
    (∃ s', void_batch sampleStateV 2 sampleUser = .ok s') :=
  ⟨rfl, ⟨_, rfl⟩⟩

/-- Witness for C3: voiding the LOCKED sample batch. -/
theorem C3_void_frees_commissions_witness :
    (match void_batch sampleStateB 2 sampleUser with
     | .error e => (⟨2, 1, "PAY-B", 0, BatchStatus.LOCKED, "", 1, none⟩ :
          PayoutBatchR).status = BatchStatus.RELEASED ∧
        e = .state "Cannot void a RELEASED batch (must reverse transactions manually)."
     | .ok s' =>
        ¬ (⟨2, 1, "PAY-B", 0, BatchStatus.LOCKED, "", 1, none⟩ :
          PayoutBatchR).status = BatchStatus.RELEASED ∧
        (∀ x ∈ s'.batches, x.id = 2 → x.status = BatchStatus.VOID) ∧
        s'.commissions = sampleStateB.commissions ∧
        s'.payouts = sampleStateB.payouts ∧
        s'.batches.map (fun x => x.id) = sampleStateB.batches.map (fun x => x.id) ∧
        (∀ li ∈ sampleStateB.lineItems, liInBatch sampleStateB 2 li = true →
          s'.lineItems.countP
            (fun z => decide (z.commission = li.commission)) = 0)) :=
  C3_void_frees_commissions sampleStateB 2 sampleUser
    ⟨2, 1, "PAY-B", 0, BatchStatus.LOCKED, "", 1, none⟩ rfl
    (fun x => by simp [sampleStateB])

/-- Witness for C6: generate twice against the sample DRAFT batch. -/
theorem C6_generate_idempotent_witness :
    (match generate_draft_payouts sampleStateA 2 with
     | .ok r => generate_draft_payouts r.1 2 = .ok (r.1, 0)
     | .error _ => True) :=
  C6_generate_idempotent sampleStateA 2 ⟨by decide, by decide⟩

/-! ## Hierarchy resolution and commission creation
(`commissions/services.py`: `OverrideResolutionService`,
`CommissionCreationService`) -/

/-- The date filter of `get_manager_at_date`:
`start_date <= d` and (`end_date` null or `end_date >= d`).  `is_active` is
not consulted. -/
def rlMatches (c : ℕ) (d : ℤ) (r : ReportingLineR) : Bool :=
  decide (r.consultant = c ∧ r.start_date ≤ d ∧
    (r.end_date = none ∨ ∃ e, r.end_date = some e ∧ d ≤ e))

/-- `.first()` under the model ordering `['-start_date']`: the earliest row
holding the maximal `start_date`. -/
def firstByStartDesc (l : List ReportingLineR) : Option ReportingLineR :=
  l.foldl
    (fun acc r =>
      match acc with
      | none => some r
      | some a => if a.start_date < r.start_date then some r else some a)
    none

/-- `OverrideResolutionService.get_manager_at_date`. -/
def get_manager_at_date (lines : List ReportingLineR) (c : ℕ) (d : ℤ) : Option ℕ :=
  (firstByStartDesc (lines.filter (rlMatches c d))).map (fun r => r.manager)

/-- `OverrideResolutionService.DEFAULT_OVERRIDE_RATES` with its `.get`
default: level 1 ↦ 2%, level 2 ↦ 1%, anything else ↦ 0%. -/
def DEFAULT_OVERRIDE_RATES (level : ℕ) : ℚ :=
  if level = 1 then 2 else if level = 2 then 1 else 0

/-- The loop of `resolve_override_chain`: walk up at most `rem` further
levels from `current`, stopping on a missing manager or a cycle back to the
original consultant. -/
def resolveChainGo (lines : List ReportingLineR) (d : ℤ) (c0 : ℕ) :
    ℕ → ℕ → ℕ → List (ℕ × ℕ)
  | 0, _, _ => []
  | rem + 1, level, current =>
    match get_manager_at_date lines current d with
    | none => []
    | some m =>
      if m = c0 then []
      else (m, level) :: resolveChainGo lines d c0 rem (level + 1) m

/-- `OverrideResolutionService.resolve_override_chain` (`max_levels = 2`). -/
def resolve_override_chain (lines : List ReportingLineR) (c : ℕ) (d : ℤ)
    (max_levels : ℕ := 2) : List (ℕ × ℕ) :=
  resolveChainGo lines d c max_levels 1 c

/-- The exceptions a commission insert can raise: `full_clean`'s
`ValidationError` or the database `IntegrityError` for a duplicate
`reference_number`. -/
inductive CreationErr
  | validation (msg : String)
  | integrity (msg : String)
deriving DecidableEq, Repr

/-- `Commission.clean` (`commissions/models.py`).  The p53 "cannot modify a
paid commission" branch is unreachable (its guard requires
`state = 'paid'` and `state ≠ 'paid'` at once) and is omitted. -/
def cleanCommission (c : CommissionR) : Except CreationErr Unit :=
  if c.commission_type = CType.base ∧ ¬ c.manager = none then
    .error (.validation "Base commissions should not have a manager assigned.")
  else if c.commission_type = CType.override ∧ c.manager = none then
    .error (.validation "Override commissions must have a manager assigned.")
  else if c.commission_type = CType.adjustment ∧ c.adjustment_for = none then
    .error (.validation "Adjustment commissions must reference the original commission.")
  else if c.approved_by = some c.consultant then
    .error (.validation "A user cannot approve their own commission.")
  else .ok ()

/-- `Commission.objects.create(...)`: run `full_clean` (the overridden
`save`), enforce the unique constraint on `reference_number`, append the
row and advance the id sequence. -/
def insertNewCommission (s : St) (c : CommissionR) : Except CreationErr St :=
  match cleanCommission c with
  | .error e => .error e
  | .ok _ =>
    if ∃ z ∈ s.commissions, z.reference_number = c.reference_number then
      .error (.integrity "UNIQUE constraint failed: commissions_commission.reference_number")
    else
      .ok { s with commissions := s.commissions ++ [c], nextId := s.nextId + 1 }

/-- Username lookup (`consultant.username`, used in override notes). -/
def usernameOf (s : St) (uid : ℕ) : String :=
  match s.users.find? (fun u => decide (u.id = uid)) with
  | some u => u.username
  | none => ""

/-- The override-creation loop of
`CommissionCreationService.create_base_commission_with_overrides`. -/
def createOverridesGo (consultant : ℕ) (d : ℤ) (sale gst : ℚ) (ref : String)
    (baseId : ℕ) (created_by : Option ℕ) :
    List (ℕ × ℕ) → St → List ℕ → Except CreationErr (St × List ℕ)
  | [], t, acc => .ok (t, acc)
  | (m, level) :: rest, t, acc =>
    let orate := DEFAULT_OVERRIDE_RATES level
    let oc : CommissionR :=
      ⟨t.nextId, CType.override, consultant, some m, d, sale, gst, orate,
        calculate_override_commission sale orate gst, CState.draft,
        ref ++ "-OVR-L" ++ toString level,
        "Level " ++ toString level ++ " override for " ++ usernameOf t consultant,
        some level, some baseId, none, created_by, none, none, none, ""⟩
    match insertNewCommission t oc with
    | .error e => .error e
    | .ok t2 => createOverridesGo consultant d sale gst ref baseId created_by
        rest t2 (acc ++ [oc.id])

/-- `CommissionCreationService.create_base_commission_with_overrides`: one
atomic transaction creating the draft base commission plus one draft
override per resolved chain entry.  Returns the base id and override ids. -/
def create_base_commission_with_overrides (s : St) (consultant : ℕ) (d : ℤ)
    (sale gst rate : ℚ) (ref notes : String) (created_by : Option ℕ) :
    Except CreationErr (St × ℕ × List ℕ) :=
  let base : CommissionR :=
    ⟨s.nextId, CType.base, consultant, none, d, sale, gst, rate,
      calculate_base_commission sale rate gst, CState.draft, ref, notes,
      none, none, none, created_by, none, none, none, ""⟩
  match insertNewCommission s base with
  | .error e => .error e
  | .ok s1 =>
    match createOverridesGo consultant d sale gst ref base.id created_by
        (resolve_override_chain s1.reportingLines consultant d 2) s1 [] with
    | .error e => .error e
    | .ok r => .ok (r.1, base.id, r.2)

lemma insertNewCommission_ok_eq {s : St} {c : CommissionR} {t : St}
    (h : insertNewCommission s c = .ok t) :
    t = { s with commissions := s.commissions ++ [c], nextId := s.nextId + 1 } := by
  unfold insertNewCommission at h
  cases hcl : cleanCommission c with
  | error e =>
    rw [hcl] at h
    exact Except.noConfusion h
  | ok u =>
    rw [hcl] at h
    dsimp only at h
    by_cases hz : ∃ z ∈ s.commissions, z.reference_number = c.reference_number
    · rw [if_pos hz] at h
      exact Except.noConfusion h
    · rw [if_neg hz] at h
      exact (Except.ok.inj h).symm

lemma forall₂_mem_right {α β : Type} {R : α → β → Prop} :
    ∀ {l₁ : List α} {l₂ : List β}, List.Forall₂ R l₁ l₂ →
      ∀ b ∈ l₂, ∃ a ∈ l₁, R a b := by
  intro l₁ l₂ h
  induction h with
  | nil => intro b hb; exact absurd hb (List.not_mem_nil b)
  | cons hab _ ih =>
    intro b hb
    rcases List.mem_cons.mp hb with rfl | hb'
    · exact ⟨_, List.mem_cons_self _ _, hab⟩
    · obtain ⟨a, ha, hr⟩ := ih b hb'
      exact ⟨a, List.mem_cons_of_mem _ ha, hr⟩

/-- Per-entry characterization of the override-creation loop. -/
lemma createOverridesGo_spec (consultant : ℕ) (d : ℤ) (sale gst : ℚ)
    (ref : String) (baseId : ℕ) (created_by : Option ℕ) :
    ∀ (chain : List (ℕ × ℕ)) (t : St) (acc : List ℕ),
      match createOverridesGo consultant d sale gst ref baseId created_by
          chain t acc with
      | .error _ => True
      | .ok r =>
        ∃ ovrs : List CommissionR, r.1.commissions = t.commissions ++ ovrs ∧
          List.Forall₂ (fun (ml : ℕ × ℕ) (oc : CommissionR) =>
            oc.commission_type = CType.override ∧ oc.consultant = consultant ∧
            oc.manager = some ml.1 ∧ oc.override_level = some ml.2 ∧
            oc.parent_commission = some baseId ∧ oc.state = CState.draft ∧
            oc.commission_rate = DEFAULT_OVERRIDE_RATES ml.2 ∧
            oc.calculated_amount =
              calculate_override_commission sale (DEFAULT_OVERRIDE_RATES ml.2) gst ∧
            oc.reference_number = ref ++ "-OVR-L" ++ toString ml.2) chain ovrs := by
  intro chain
  induction chain with
  | nil =>
    intro t acc
    exact ⟨[], by simp, List.Forall₂.nil⟩
  | cons ml rest ih =>
    intro t acc
    obtain ⟨m, level⟩ := ml
    simp only [createOverridesGo]
    cases hins : insertNewCommission t
        ⟨t.nextId, CType.override, consultant, some m, d, sale, gst,
          DEFAULT_OVERRIDE_RATES level,
          calculate_override_commission sale (DEFAULT_OVERRIDE_RATES level) gst,
          CState.draft, ref ++ "-OVR-L" ++ toString level,
          "Level " ++ toString level ++ " override for " ++ usernameOf t consultant,
          some level, some baseId, none, created_by, none, none, none, ""⟩ with
    | error e => exact trivial
    | ok t2 =>
      dsimp only
      have ht2 := insertNewCommission_ok_eq hins
      have hrec := ih t2 (acc ++ [t.nextId])
      cases hgo : createOverridesGo consultant d sale gst ref baseId created_by
          rest t2 (acc ++ [t.nextId]) with
      | error e => exact trivial
      | ok r =>
        rw [hgo] at hrec
        obtain ⟨ovrs, hc, hf⟩ := hrec
        refine ⟨(⟨t.nextId, CType.override, consultant, some m, d, sale, gst,
          DEFAULT_OVERRIDE_RATES level,
          calculate_override_commission sale (DEFAULT_OVERRIDE_RATES level) gst,
          CState.draft, ref ++ "-OVR-L" ++ toString level,
          "Level " ++ toString level ++ " override for " ++ usernameOf t consultant,
          some level, some baseId, none, created_by, none, none, none, ""⟩ :
            CommissionR) :: ovrs, ?_, ?_⟩
        · rw [hc, ht2]
          show (t.commissions ++ [_]) ++ ovrs = t.commissions ++ _ :: ovrs
          rw [List.append_assoc, List.singleton_append]
        · exact List.Forall₂.cons
            ⟨rfl, rfl, rfl, rfl, rfl, rfl, rfl, rfl, rfl⟩ hf

/-- Whole-run characterization of
`create_base_commission_with_overrides`: duplicate references abort with the
integrity error and no partial write (the `Except` result is the
transaction); a successful run appends exactly the draft base row and one
draft override row per resolved chain entry. -/
lemma create_spec (s : St) (consultant : ℕ) (d : ℤ) (sale gst rate : ℚ)
    (ref notes : String) (created_by : Option ℕ) :
    ((∃ z ∈ s.commissions, z.reference_number = ref) →
      create_base_commission_with_overrides s consultant d sale gst rate ref
        notes created_by =
        .error (.integrity "UNIQUE constraint failed: commissions_commission.reference_number")) ∧
    (match create_base_commission_with_overrides s consultant d sale gst rate
        ref notes created_by with
     | .error _ => True
     | .ok r =>
        r.2.1 = s.nextId ∧
        ∃ ovrs, r.1.commissions = s.commissions ++
            (⟨s.nextId, CType.base, consultant, none, d, sale, gst, rate,
              calculate_base_commission sale rate gst, CState.draft, ref, notes,
              none, none, none, created_by, none, none, none, ""⟩ : CommissionR)
              :: ovrs ∧
          List.Forall₂ (fun (ml : ℕ × ℕ) (oc : CommissionR) =>
            oc.commission_type = CType.override ∧ oc.consultant = consultant ∧
            oc.manager = some ml.1 ∧ oc.override_level = some ml.2 ∧
            oc.parent_commission = some s.nextId ∧ oc.state = CState.draft ∧
            oc.commission_rate = DEFAULT_OVERRIDE_RATES ml.2 ∧
            oc.calculated_amount =
              calculate_override_commission sale (DEFAULT_OVERRIDE_RATES ml.2) gst ∧
            oc.reference_number = ref ++ "-OVR-L" ++ toString ml.2)
            (resolve_override_chain s.reportingLines consultant d 2) ovrs) := by
  constructor
  · intro hz
    unfold create_base_commission_with_overrides insertNewCommission
    dsimp only
    have hclean : cleanCommission
        ⟨s.nextId, CType.base, consultant, none, d, sale, gst, rate,
          calculate_base_commission sale rate gst, CState.draft, ref, notes,
          none, none, none, created_by, none, none, none, ""⟩ = .ok () := rfl
    rw [hclean]
    dsimp only
    rw [if_pos hz]
  · unfold create_base_commission_with_overrides
    dsimp only
    cases hins : insertNewCommission s
        ⟨s.nextId, CType.base, consultant, none, d, sale, gst, rate,
          calculate_base_commission sale rate gst, CState.draft, ref, notes,
          none, none, none, created_by, none, none, none, ""⟩ with
    | error e => exact trivial
    | ok s1 =>
      have hs1 := insertNewCommission_ok_eq hins
      subst hs1
      dsimp only
      have hgo := createOverridesGo_spec consultant d sale gst ref s.nextId
        created_by (resolve_override_chain s.reportingLines consultant d 2)
        { s with
          commissions := s.commissions ++
            [⟨s.nextId, CType.base, consultant, none, d, sale, gst, rate,
              calculate_base_commission sale rate gst, CState.draft, ref, notes,
              none, none, none, created_by, none, none, none, ""⟩],
          nextId := s.nextId + 1 } []
      cases hr : createOverridesGo consultant d sale gst ref s.nextId created_by
          (resolve_override_chain s.reportingLines consultant d 2)
          { s with
            commissions := s.commissions ++
              [⟨s.nextId, CType.base, consultant, none, d, sale, gst, rate,
                calculate_base_commission sale rate gst, CState.draft, ref, notes,
                none, none, none, created_by, none, none, none, ""⟩],
            nextId := s.nextId + 1 } [] with
      | error e => exact trivial
      | ok r =>
        rw [hr] at hgo
        obtain ⟨ovrs, hc, hf⟩ := hgo
        refine ⟨rfl, ovrs, ?_, hf⟩
        rw [hc]
        show (s.commissions ++ [_]) ++ ovrs = s.commissions ++ _ :: ovrs
        rw [List.append_assoc, List.singleton_append]

/-- C8: `create_base_commission_with_overrides` is one atomic unit: a
duplicate `reference_number` aborts the whole run with the integrity error
and no partial write; a successful run creates the draft base (no manager)
plus one draft override per resolved chain entry with the level-indexed
rates (2% at level 1, 1% at level 2, 0% beyond), `parent_commission`
pointing at the base and the reference derived as `ref ++ "-OVR-L" ++
level`. -/
theorem C8_create_base_with_overrides (s : St) (consultant : ℕ) (d : ℤ)
    (sale gst rate : ℚ) (ref notes : String) (created_by : Option ℕ) :
    ((∃ z ∈ s.commissions, z.reference_number = ref) →
      create_base_commission_with_overrides s consultant d sale gst rate ref
        notes created_by =
        .error (.integrity "UNIQUE constraint failed: commissions_commission.reference_number")) ∧
    (DEFAULT_OVERRIDE_RATES 1 = 2 ∧ DEFAULT_OVERRIDE_RATES 2 = 1 ∧
      ∀ l : ℕ, 3 ≤ l → DEFAULT_OVERRIDE_RATES l = 0) ∧
    (match create_base_commission_with_overrides s consultant d sale gst rate
        ref notes created_by with
     | .error _ => True
     | .ok r =>
        r.2.1 = s.nextId ∧
        ∃ ovrs, r.1.commissions = s.commissions ++
            (⟨s.nextId, CType.base, consultant, none, d, sale, gst, rate,
              calculate_base_commission sale rate gst, CState.draft, ref, notes,
              none, none, none, created_by, none, none, none, ""⟩ : CommissionR)
              :: ovrs ∧
          List.Forall₂ (fun (ml : ℕ × ℕ) (oc : CommissionR) =>
            oc.commission_type = CType.override ∧ oc.consultant = consultant ∧
            oc.manager = some ml.1 ∧ oc.override_level = some ml.2 ∧
            oc.parent_commission = some s.nextId ∧ oc.state = CState.draft ∧
            oc.commission_rate = DEFAULT_OVERRIDE_RATES ml.2 ∧
            oc.calculated_amount =
              calculate_override_commission sale (DEFAULT_OVERRIDE_RATES ml.2) gst ∧
            oc.reference_number = ref ++ "-OVR-L" ++ toString ml.2)
            (resolve_override_chain s.reportingLines consultant d 2) ovrs) :=
  ⟨(create_spec s consultant d sale gst rate ref notes created_by).1,
    ⟨rfl, rfl, fun l hl => by
      unfold DEFAULT_OVERRIDE_RATES
      rw [if_neg (by omega), if_neg (by omega)]⟩,
    (create_spec s consultant d sale gst rate ref notes created_by).2⟩

/-- A state with an existing commission whose reference is `REF-1`. -/
def sampleCommission : CommissionR :=
  ⟨1, CType.base, 1, none, 0, 100, 0, 5, 5, CState.approved, "REF-1", "",
    none, none, none, none, none, none, none, ""⟩

def sampleStateD : St :=
  { users := [sampleUser], commissions := [sampleCommission], approvals := [],
    approvalHistory := [], reportingLines := [], batches := [], payouts := [],
    lineItems := [], payoutHistory := [], nextId := 5 }

/-- Witness for C8: inserting a duplicate reference aborts the creation. -/
theorem C8_create_base_with_overrides_witness :
    create_base_commission_with_overrides sampleStateD 1 0 100 0 5 "REF-1" "" none =
      .error (.integrity "UNIQUE constraint failed: commissions_commission.reference_number") :=
  (C8_create_base_with_overrides sampleStateD 1 0 100 0 5 "REF-1" "" none).1
    ⟨sampleCommission, List.mem_cons_self _ _, rfl⟩

/-- C10: an override commission stores the selling consultant in
`consultant` and the earning manager only in `manager`; since
`generate_draft_payouts` groups by the `consultant` field, every line item
it creates belongs to a payout of the linked commission's `consultant` —
for an override, the seller, not the manager. -/
theorem C10_override_settles_to_selling_consultant :
    (∀ (s : St) (consultant : ℕ) (d : ℤ) (sale gst rate : ℚ)
        (ref notes : String) (created_by : Option ℕ),
      match create_base_commission_with_overrides s consultant d sale gst rate
          ref notes created_by with
      | .error _ => True
      | .ok r => ∃ base ovrs, r.1.commissions = s.commissions ++ base :: ovrs ∧
          base.consultant = consultant ∧
          ∀ oc ∈ ovrs, oc.commission_type = CType.override ∧
            oc.consultant = consultant ∧
            ∃ pair ∈ resolve_override_chain s.reportingLines consultant d 2,
              oc.manager = some pair.1) ∧
    (∀ (s : St) (b : ℕ), PayoutsWF s →
      match generate_draft_payouts s b with
      | .error _ => True
      | .ok r => ∀ li ∈ r.1.lineItems, li ∉ s.lineItems →
          ∃ c ∈ s.commissions, li.commission = c.id ∧
            ∀ p ∈ r.1.payouts, p.id = li.payout → p.consultant = c.consultant) := by
  constructor
  · intro s consultant d sale gst rate ref notes created_by
    have h := (create_spec s consultant d sale gst rate ref notes created_by).2
    cases hc : create_base_commission_with_overrides s consultant d sale gst
        rate ref notes created_by with
    | error e => exact trivial
    | ok r =>
      rw [hc] at h
      obtain ⟨_, ovrs, hcm, hf⟩ := h
      refine ⟨_, ovrs, hcm, rfl, ?_⟩
      intro oc hoc
      obtain ⟨ml, hml, hp⟩ := forall₂_mem_right hf oc hoc
      exact ⟨hp.1, hp.2.1, ml, hml, hp.2.2.1⟩
  · intro s b hwf
    have h := generate_spec s b hwf
    cases hg : generate_draft_payouts s b with
    | error e => exact trivial
    | ok r =>
      rw [hg] at h
      obtain ⟨_, _, _, E, hE, _, hitems⟩ := h
      intro li hli hnew
      rw [hE] at hli
      rcases List.mem_append.mp hli with hmem | hmem
      · exact absurd hmem hnew
      · obtain ⟨c, hc, hcid, hpid⟩ := hitems li hmem
        exact ⟨c, (List.mem_filter.mp hc).1, hcid, hpid.2⟩

/-- Witness for C10: the generate half applied at the sample state. -/
theorem C10_override_settles_to_selling_consultant_witness :
    (match generate_draft_payouts sampleStateA 2 with
     | .error _ => True
     | .ok r => ∀ li ∈ r.1.lineItems, li ∉ sampleStateA.lineItems →
        ∃ c ∈ sampleStateA.commissions, li.commission = c.id ∧
          ∀ p ∈ r.1.payouts, p.id = li.payout → p.consultant = c.consultant) :=
  C10_override_settles_to_selling_consultant.2 sampleStateA 2
    ⟨by decide, by decide⟩

/-! ## Approval services (`commissions/approvals/services.py` and
`StateTransitionService` of `commissions/services.py`)

Python raises a single `ApprovalError(ValidationError)` class whose message
embeds the offending data; the embedding represents each raise site by a
constructor carrying that same data (`invalidTransition` holds the current
and requested states that the message interpolates). -/

inductive AErr
  | invalidTransition (cur target : CState)
  | authDenied (msg : String)
  | rejectionReasonMandatory
  | validation (msg : String)
  | missingRow
  | fuelExhausted
deriving DecidableEq, Repr

/-- `ApprovalStateService.VALID_TRANSITIONS` with the `.get(_, [])`
default (no entry for `paid`). -/
def ApprovalStateService_VALID_TRANSITIONS : CState → List CState
  | CState.draft => [CState.submitted]
  | CState.submitted => [CState.approved, CState.rejected]
  | CState.approved => [CState.paid]
  | CState.rejected => [CState.submitted]
  | CState.paid => []

/-- `StateTransitionService.VALID_TRANSITIONS` (`commissions/services.py`):
note `rejected → draft`, unlike the approvals table. -/
def StateTransitionService_VALID_TRANSITIONS : CState → List CState
  | CState.draft => [CState.submitted]
  | CState.submitted => [CState.approved, CState.rejected]
  | CState.approved => [CState.paid]
  | CState.rejected => [CState.draft]
  | CState.paid => []

/-- `StateTransitionService.can_transition`. -/
def StateTransitionService_can_transition (f t : CState) : Bool :=
  decide (t ∈ StateTransitionService_VALID_TRANSITIONS f)

/-- `ApprovalStateService.validate_transition`. -/
def validate_transition (c : CommissionR) (target : CState) : Except AErr Unit :=
  if target ∈ ApprovalStateService_VALID_TRANSITIONS c.state then .ok ()
  else .error (.invalidTransition c.state target)

/-- Primary-key lookup of a commission (the live ORM object the service is
handed). -/
def findCommission (s : St) (cid : ℕ) : Option CommissionR :=
  s.commissions.find? (fun c => decide (c.id = cid))

/-- `ApprovalStateService.record_action`: flip the commission state (also
stamping `approved_by`/`approved_at` on approval and `paid_at` on payment),
save it (running `full_clean`), lazily create the `CommissionApproval` row,
and append one `ApprovalHistory` entry.  `transitionUpdate` is the field
update `record_action` applies before saving. -/
def transitionUpdate (c : CommissionR) (actor : UserR) (to_state : CState)
    (now : ℤ) : CommissionR :=
  { c with
    state := to_state,
    approved_by := if to_state = CState.approved then some actor.id
      else c.approved_by,
    approved_at := if to_state = CState.approved then some now
      else c.approved_at,
    paid_at := if to_state = CState.paid then some now else c.paid_at }

def record_action (s : St) (cid : ℕ) (action : String) (actor : UserR)
    (to_state : CState) (notes : String) (now : ℤ) : Except AErr St :=
  match findCommission s cid with
  | none => .error .missingRow
  | some c =>
    let c2 : CommissionR := transitionUpdate c actor to_state now
    match cleanCommission c2 with
    | .error (CreationErr.validation m) => .error (.validation m)
    | .error (CreationErr.integrity m) => .error (.validation m)
    | .ok _ =>
      let s1 : St := mapCommissions s (fun z => if z.id = cid then c2 else z)
      let s2 : St :=
        if ∃ a ∈ s1.approvals, a.commission = cid then s1
        else { s1 with approvals := s1.approvals ++ [⟨cid, none, "MANAGER", false⟩] }
      let h : ApprovalHistoryR := ⟨cid, action, actor.id, c.state, to_state, notes⟩
      .ok { s2 with approvalHistory := s2.approvalHistory ++ [h] }

/-- `ApprovalSubmissionService.submit`: validate, lazily create the
approval record, lock in `assigned_approver := commission.manager` when
still unset, then record SUBMIT. -/
def submit (s : St) (cid : ℕ) (actor : UserR) (notes : String) (now : ℤ) :
    Except AErr St :=
  match findCommission s cid with
  | none => .error .missingRow
  | some c =>
    match validate_transition c CState.submitted with
    | .error e => .error e
    | .ok _ =>
      let s1 : St :=
        if ∃ a ∈ s.approvals, a.commission = cid then s
        else { s with approvals := s.approvals ++ [⟨cid, none, "MANAGER", false⟩] }
      let f := fun (a : CommissionApprovalR) =>
        if a.commission = cid ∧ a.assigned_approver = none then
          { a with assigned_approver := c.manager, assigned_role := "MANAGER" }
        else a
      let s2 : St := { s1 with approvals := s1.approvals.map f }
      record_action s2 cid "SUBMIT" actor CState.submitted notes now

/-- `actor.is_staff or actor.groups.filter(name='Admins').exists()`. -/
def isAdminUser (u : UserR) : Bool := u.is_staff || u.in_admins_group

/-- Active reporting line from the commission's consultant to the actor. -/
def isHierarchyManager (s : St) (actor : UserR) (consultant : ℕ) : Bool :=
  s.reportingLines.any (fun r =>
    decide (r.manager = actor.id ∧ r.consultant = consultant ∧ r.is_active = true))

/-- The guard of `ApprovalDecisionService.approve` / `.reject`: authorized
unless none of admin / hierarchy manager / explicit manager / assigned
approver applies. -/
def approveAuthOk (s : St) (c : CommissionR) (actor : UserR) : Bool :=
  !(!isAdminUser actor && !isHierarchyManager s actor c.consultant &&
    !decide (c.manager = some actor.id) &&
    (match s.approvals.find? (fun a => decide (a.commission = c.id)) with
     | none => true
     | some a => decide (¬ a.assigned_approver = some actor.id)))

/-- Python `bool` formatting. -/
def pyBool (b : Bool) : String := if b then "True" else "False"

/-- The interpolated message of the approve authorization failure. -/
def authDeniedMsg (s : St) (c : CommissionR) (actor : UserR) : String :=
  "Auth Denied. Admin:" ++ pyBool (isAdminUser actor) ++
  ", Hier:" ++ pyBool (isHierarchyManager s actor c.consultant) ++
  ", Expl:" ++ pyBool (decide (c.manager = some actor.id)) ++
  ", Actor:" ++ actor.username ++ ", Cons:" ++ usernameOf s c.consultant

/-- `ApprovalDecisionService.approve`, fuelled: validate, authorize, record
APPROVE, then — for a base commission — recursively approve every child
commission still in `submitted`.  The fuel stands for the Python call
stack: Python recurses unboundedly and would overflow on cyclic
`parent_commission` data, which `approve` (below) rules out by supplying
fuel exceeding any acyclic chain length. -/
def approveGo (actor : UserR) (notes : String) (now : ℤ) :
    ℕ → St → ℕ → Except AErr St
  | 0, _, _ => .error .fuelExhausted
  | fuel + 1, s, cid =>
    match findCommission s cid with
    | none => .error .missingRow
    | some c =>
      match validate_transition c CState.approved with
      | .error e => .error e
      | .ok _ =>
        if approveAuthOk s c actor then
          match record_action s cid "APPROVE" actor CState.approved notes now with
          | .error e => .error e
          | .ok s1 =>
            if c.commission_type = CType.base then
              ((s1.commissions.filter (fun z =>
                decide (z.parent_commission = some cid ∧
                  z.state = CState.submitted))).map (fun z => z.id)).foldlM
                (fun t i => approveGo actor
                  ("Auto-approved via base " ++ c.reference_number) now fuel t i)
                s1
            else .ok s1
        else .error (.authDenied (authDeniedMsg s c actor))

/-- `ApprovalDecisionService.approve` at the top level. -/
def approve (s : St) (cid : ℕ) (actor : UserR) (notes : String) (now : ℤ) :
    Except AErr St :=
  approveGo actor notes now (s.commissions.length + 1) s cid

/-- `ApprovalDecisionService.reject`: mandatory reason, validate,
authorize (same guard as approve), record REJECT with the reason as
notes. -/
def reject (s : St) (cid : ℕ) (actor : UserR) (rejection_reason : String)
    (now : ℤ) : Except AErr St :=
  if rejection_reason = "" then .error .rejectionReasonMandatory
  else
    match findCommission s cid with
    | none => .error .missingRow
    | some c =>
      match validate_transition c CState.rejected with
      | .error e => .error e
      | .ok _ =>
        if approveAuthOk s c actor then
          record_action s cid "REJECT" actor CState.rejected rejection_reason now
        else .error (.authDenied "You are not authorized to reject this commission.")

/-- `ApprovalPaymentService.mark_as_paid`: the admin gate comes first
(before the transition check), then validate and record PAID. -/
def mark_as_paid (s : St) (cid : ℕ) (actor : UserR) (notes : String)
    (now : ℤ) : Except AErr St :=
  if isAdminUser actor then
    match findCommission s cid with
    | none => .error .missingRow
    | some c =>
      match validate_transition c CState.paid with
      | .error e => .error e
      | .ok _ => record_action s cid "PAID" actor CState.paid notes now
  else .error (.authDenied "Only Admins or Finance roles can mark commissions as paid.")

/-- The state labels used in messages and stored in the `state` column. -/
def stateName : CState → String
  | CState.draft => "draft"
  | CState.submitted => "submitted"
  | CState.approved => "approved"
  | CState.paid => "paid"
  | CState.rejected => "rejected"

/-- `commission.save()` on an existing row: `full_clean` then update. -/
def saveExistingCommission (s : St) (cid : ℕ) (c2 : CommissionR) :
    Except AErr St :=
  match cleanCommission c2 with
  | .error (CreationErr.validation m) => .error (.validation m)
  | .error (CreationErr.integrity m) => .error (.validation m)
  | .ok _ => .ok (mapCommissions s (fun z => if z.id = cid then c2 else z))

/-- `StateTransitionService.transition_to_submitted`. -/
def transition_to_submitted (s : St) (cid : ℕ) (notes : String) :
    Except AErr St :=
  match findCommission s cid with
  | none => .error .missingRow
  | some c =>
    if ¬ StateTransitionService_can_transition c.state CState.submitted = true then
      .error (.validation
        ("Cannot transition from " ++ stateName c.state ++ " to submitted."))
    else
      saveExistingCommission s cid
        { c with
          state := CState.submitted,
          notes := if notes = "" then c.notes
            else c.notes ++ "\n[Submitted] " ++ notes }

/-- The override loop of `StateTransitionService.transition_to_approved`:
flip every related override still in `submitted` (no authorization
re-check in this legacy service). -/
def stsCascadeGo (actor : UserR) (now : ℤ) : List ℕ → St → Except AErr St
  | [], t => .ok t
  | i :: rest, t =>
    match findCommission t i with
    | none => .error .missingRow
    | some z =>
      if z.state = CState.submitted then
        match saveExistingCommission t i
            { z with
              state := CState.approved,
              approved_by := some actor.id,
              approved_at := some now } with
        | .error e => .error e
        | .ok t2 => stsCascadeGo actor now rest t2
      else stsCascadeGo actor now rest t

/-- `StateTransitionService.transition_to_approved`. -/
def transition_to_approved (s : St) (cid : ℕ) (actor : UserR) (notes : String)
    (now : ℤ) : Except AErr St :=
  match findCommission s cid with
  | none => .error .missingRow
  | some c =>
    if ¬ StateTransitionService_can_transition c.state CState.approved = true then
      .error (.validation
        ("Cannot transition from " ++ stateName c.state ++ " to approved."))
    else
      match saveExistingCommission s cid
          { c with
            state := CState.approved,
            approved_by := some actor.id,
            approved_at := some now,
            notes := if notes = "" then c.notes
              else c.notes ++ "\n[Approved] " ++ notes } with
      | .error e => .error e
      | .ok s1 =>
        if c.commission_type = CType.base then
          stsCascadeGo actor now
            ((s1.commissions.filter (fun z =>
              decide (z.parent_commission = some cid ∧
                z.commission_type = CType.override))).map (fun z => z.id)) s1
        else .ok s1

/-- `StateTransitionService.transition_to_rejected`. -/
def transition_to_rejected (s : St) (cid : ℕ) (rejection_reason : String) :
    Except AErr St :=
  match findCommission s cid with
  | none => .error .missingRow
  | some c =>
    if ¬ StateTransitionService_can_transition c.state CState.rejected = true then
      .error (.validation
        ("Cannot transition from " ++ stateName c.state ++ " to rejected."))
    else
      saveExistingCommission s cid
        { c with state := CState.rejected, rejection_reason := rejection_reason }

/-- `StateTransitionService.transition_to_paid`. -/
def transition_to_paid (s : St) (cid : ℕ) (paid_at : Option ℤ) (now : ℤ) :
    Except AErr St :=
  match findCommission s cid with
  | none => .error .missingRow
  | some c =>
    if ¬ StateTransitionService_can_transition c.state CState.paid = true then
      .error (.validation
        ("Cannot transition from " ++ stateName c.state ++ " to paid."))
    else
      saveExistingCommission s cid
        { c with state := CState.paid, paid_at := some (paid_at.getD now) }

/-- C5: the approval transition tables and failure semantics.  The
approvals table admits exactly the five claimed transitions (including
`rejected → submitted` resubmission); every transition the legacy
`StateTransitionService` can actually perform (its four methods target
`submitted`, `approved`, `rejected`, `paid` — its `rejected → draft` table
row has no method) is also among the five; and each approval action on an
ineligible current state fails with the invalid-transition error carrying
exactly the current and requested state, producing no new state. -/
theorem C5_transition_table :
    (∀ f t : CState, t ∈ ApprovalStateService_VALID_TRANSITIONS f ↔
      (f, t) ∈ [(CState.draft, CState.submitted),
        (CState.submitted, CState.approved),
        (CState.submitted, CState.rejected),
        (CState.approved, CState.paid),
        (CState.rejected, CState.submitted)]) ∧
    (∀ f t : CState, StateTransitionService_can_transition f t = true →
      t ∈ [CState.submitted, CState.approved, CState.rejected, CState.paid] →
      (f, t) ∈ [(CState.draft, CState.submitted),
        (CState.submitted, CState.approved),
        (CState.submitted, CState.rejected),
        (CState.approved, CState.paid),
        (CState.rejected, CState.submitted)]) ∧
    (∀ (c : CommissionR) (target : CState),
      ¬ target ∈ ApprovalStateService_VALID_TRANSITIONS c.state →
      validate_transition c target = .error (.invalidTransition c.state target)) ∧
    (∀ (s : St) (cid : ℕ) (actor : UserR) (notes : String) (now : ℤ)
        (c : CommissionR), findCommission s cid = some c →
      ¬ CState.submitted ∈ ApprovalStateService_VALID_TRANSITIONS c.state →
      submit s cid actor notes now = .error (.invalidTransition c.state CState.submitted)) ∧
    (∀ (s : St) (cid : ℕ) (actor : UserR) (notes : String) (now : ℤ)
        (c : CommissionR), findCommission s cid = some c →
      ¬ CState.approved ∈ ApprovalStateService_VALID_TRANSITIONS c.state →
      approve s cid actor notes now = .error (.invalidTransition c.state CState.approved)) ∧
    (∀ (s : St) (cid : ℕ) (actor : UserR) (reason : String) (now : ℤ)
        (c : CommissionR), ¬ reason = "" → findCommission s cid = some c →
      ¬ CState.rejected ∈ ApprovalStateService_VALID_TRANSITIONS c.state →
      reject s cid actor reason now = .error (.invalidTransition c.state CState.rejected)) ∧
    (∀ (s : St) (cid : ℕ) (actor : UserR) (notes : String) (now : ℤ)
        (c : CommissionR), isAdminUser actor = true →
      findCommission s cid = some c →
      ¬ CState.paid ∈ ApprovalStateService_VALID_TRANSITIONS c.state →
      mark_as_paid s cid actor notes now = .error (.invalidTransition c.state CState.paid)) := by
  refine ⟨by decide, by decide, ?_, ?_, ?_, ?_, ?_⟩
  · intro c target h
    unfold validate_transition
    rw [if_neg h]
  · intro s cid actor notes now c hf h
    unfold submit
    rw [hf]
    dsimp only
    have hv : validate_transition c CState.submitted =
        .error (.invalidTransition c.state CState.submitted) := by
      unfold validate_transition
      rw [if_neg h]
    rw [hv]
  · intro s cid actor notes now c hf h
    unfold approve
    simp only [approveGo]
    rw [hf]
    dsimp only
    have hv : validate_transition c CState.approved =
        .error (.invalidTransition c.state CState.approved) := by
      unfold validate_transition
      rw [if_neg h]
    rw [hv]
  · intro s cid actor reason now c hr hf h
    unfold reject
    rw [if_neg hr, hf]
    dsimp only
    have hv : validate_transition c CState.rejected =
        .error (.invalidTransition c.state CState.rejected) := by
      unfold validate_transition
      rw [if_neg h]
    rw [hv]
  · intro s cid actor notes now c hadmin hf h
    unfold mark_as_paid
    rw [if_pos hadmin, hf]
    dsimp only
    have hv : validate_transition c CState.paid =
        .error (.invalidTransition c.state CState.paid) := by
      unfold validate_transition
      rw [if_neg h]
    rw [hv]

/-- Witness for C5: submitting an already-approved commission fails with
the invalid-transition error naming both states. -/
theorem C5_transition_table_witness :
    submit sampleStateD 1 sampleUser "" 0 =
      .error (.invalidTransition CState.approved CState.submitted) :=
  C5_transition_table.2.2.2.1 sampleStateD 1 sampleUser "" 0
    sampleCommission rfl (by decide)

/-- A non-staff manager user and a commission explicitly managed by them. -/
def sampleManagerUser : UserR := ⟨30, "mark", false, false⟩

def sampleManagedCommission : CommissionR :=
  ⟨7, CType.override, 10, some 30, 0, 100, 0, 2, 2, CState.submitted,
    "REF-7", "", some 1, some 6, none, none, none, none, none, ""⟩

/-- C9: `mark_as_paid` is gated on admins (`is_staff` or the Admins group)
before anything else: any other actor receives the authorization error —
a different value than any state error — and no state change; every
actor allowed to mark paid also passes the approve/reject guard, while
the converse fails (an explicit manager may approve but not mark paid),
so the markPaid set of authorized actors is strictly smaller. -/
theorem C9_mark_paid_admin_only :
    (∀ (s : St) (cid : ℕ) (actor : UserR) (notes : String) (now : ℤ),
      ¬ isAdminUser actor = true →
      mark_as_paid s cid actor notes now =
        .error (.authDenied "Only Admins or Finance roles can mark commissions as paid.")) ∧
    (∀ (m : String) (f t : CState),
      (AErr.authDenied m) ≠ (AErr.invalidTransition f t)) ∧
    (∀ (s : St) (c : CommissionR) (actor : UserR),
      isAdminUser actor = true → approveAuthOk s c actor = true) ∧
    (approveAuthOk sampleStateA sampleManagedCommission sampleManagerUser = true ∧
      ¬ isAdminUser sampleManagerUser = true) := by
  refine ⟨?_, ?_, ?_, by decide, by decide⟩
  · intro s cid actor notes now h
    unfold mark_as_paid
    rw [if_neg (by simpa using h)]
  · intro m f t h
    exact AErr.noConfusion h
  · intro s c actor h
    unfold approveAuthOk
    rw [h]
    simp

/-- Witness for C9: the non-admin sample user cannot mark paid. -/
theorem C9_mark_paid_admin_only_witness :
    mark_as_paid sampleStateD 1 sampleUser "" 0 =
      .error (.authDenied "Only Admins or Finance roles can mark commissions as paid.") :=
  C9_mark_paid_admin_only.1 sampleStateD 1 sampleUser "" 0 (by decide)

lemma find?_comm_map {l : List CommissionR} {f : CommissionR → CommissionR}
    (hid : ∀ z, (f z).id = z.id) (j : ℕ) :
    (l.map f).find? (fun z => decide (z.id = j)) =
      (l.find? (fun z => decide (z.id = j))).map f := by
  induction l with
  | nil => rfl
  | cons a t ih =>
    rw [List.map_cons]
    by_cases h : a.id = j
    · rw [List.find?_cons_of_pos _ (by simp [hid a, h]),
        List.find?_cons_of_pos _ (by simp [h])]
      rfl
    · rw [List.find?_cons_of_neg _ (by simp [hid a, h]),
        List.find?_cons_of_neg _ (by simp [h]), ih]

lemma find?_id_eq_of_nodup : ∀ {l : List CommissionR},
    (l.map (fun c => c.id)).Nodup → ∀ {z : CommissionR}, z ∈ l →
      l.find? (fun w => decide (w.id = z.id)) = some z := by
  intro l
  induction l with
  | nil => intro _ z hz; cases hz
  | cons a t ih =>
    intro hnd z hz
    rw [List.map_cons, List.nodup_cons] at hnd
    by_cases h : a.id = z.id
    · rw [List.find?_cons_of_pos _ (by simp [h])]
      rcases List.mem_cons.mp hz with rfl | hzt
      · rfl
      · exact absurd (List.mem_map.mpr ⟨z, hzt, rfl⟩) (h ▸ hnd.1)
    · rw [List.find?_cons_of_neg _ (by simp [h])]
      rcases List.mem_cons.mp hz with rfl | hzt
      · exact absurd rfl h
      · exact ih hnd.2 hzt

lemma filter_map_comm {l : List CommissionR} {f : CommissionR → CommissionR}
    {p : CommissionR → Bool} :
    (l.map f).filter p = (l.filter (fun z => p (f z))).map f := by
  induction l with
  | nil => rfl
  | cons a t ih =>
    rw [List.map_cons]
    by_cases h : p (f a)
    · rw [List.filter_cons_of_pos h,
        List.filter_cons_of_pos (p := fun z => p (f z)) h, List.map_cons, ih]
    · rw [List.filter_cons_of_neg h,
        List.filter_cons_of_neg (p := fun z => p (f z)) h, ih]

/-- `record_action` on a live commission whose updated row passes
`full_clean`: the row is flipped in place and exactly one history entry is
appended. -/
lemma record_action_ok {s : St} {cid : ℕ} {c : CommissionR}
    (action : String) (actor : UserR) (to_state : CState) (notes : String)
    (now : ℤ) (hf : findCommission s cid = some c)
    (hclean : cleanCommission (transitionUpdate c actor to_state now) = .ok ()) :
    ∃ s', record_action s cid action actor to_state notes now = .ok s' ∧
      s'.commissions = s.commissions.map
        (fun z => if z.id = cid then transitionUpdate c actor to_state now else z) ∧
      s'.approvalHistory = s.approvalHistory ++
        [⟨cid, action, actor.id, c.state, to_state, notes⟩] := by
  unfold record_action
  rw [hf]
  dsimp only
  rw [hclean]
  dsimp only
  split
  · exact ⟨_, rfl, rfl, rfl⟩
  · exact ⟨_, rfl, rfl, rfl⟩

/-- The updated row of an APPROVE action passes `full_clean` whenever the
type/manager shape constraints hold and the actor is not the earner. -/
lemma clean_transitionUpdate_approved {c : CommissionR} (actor : UserR) (now : ℤ)
    (hb : c.commission_type = CType.base → c.manager = none)
    (ho : c.commission_type = CType.override → ¬ c.manager = none)
    (ha : c.commission_type = CType.adjustment → ¬ c.adjustment_for = none)
    (hself : ¬ actor.id = c.consultant) :
    cleanCommission (transitionUpdate c actor CState.approved now) = .ok () := by
  have h4 : ¬ (some actor.id = some c.consultant) :=
    fun h => hself (Option.some.inj h)
  cases htype : c.commission_type with
  | base =>
    have hm := hb htype
    simp [cleanCommission, transitionUpdate, htype, hm, h4]
  | override =>
    have hm := ho htype
    simp [cleanCommission, transitionUpdate, htype, hm, h4]
  | adjustment =>
    have hm := ha htype
    simp [cleanCommission, transitionUpdate, htype, hm, h4]

lemma ite_transitionUpdate_id {c : CommissionR} {cid : ℕ} (hc : c.id = cid)
    (actor : UserR) (to_state : CState) (now : ℤ) (w : CommissionR) :
    (if w.id = cid then transitionUpdate c actor to_state now else w).id = w.id := by
  by_cases h : w.id = cid
  · rw [if_pos h, h]; exact hc
  · rw [if_neg h]

lemma admin_approveAuthOk (s : St) (c : CommissionR) (actor : UserR)
    (h : isAdminUser actor = true) : approveAuthOk s c actor = true := by
  unfold approveAuthOk
  rw [h]
  simp

/-- `validate_transition` succeeds from `submitted` to `approved`. -/
lemma validate_submitted_approved {c : CommissionR}
    (h : c.state = CState.submitted) :
    validate_transition c CState.approved = .ok () := by
  unfold validate_transition
  rw [h]
  simp [ApprovalStateService_VALID_TRANSITIONS]

/-- The override cascade of `approve`: folding `approveGo` over a list of
distinct ids of live submitted override rows (each passing the per-override
shape constraints and not earned by the actor) succeeds for an admin actor,
approves exactly those rows, keeps the id sequence of the commissions
table, and appends one APPROVE history row per id. -/
lemma approveCascade_admin (actor : UserR) (notes : String) (now : ℤ)
    (hadmin : isAdminUser actor = true) (k : ℕ) :
    ∀ (ids : List ℕ) (t : St), ids.Nodup →
      (t.commissions.map (fun c => c.id)).Nodup →
      (∀ i ∈ ids, ∃ z, findCommission t i = some z ∧
        z.state = CState.submitted ∧ z.commission_type = CType.override ∧
        ¬ z.manager = none ∧ ¬ actor.id = z.consultant) →
      ∃ t', ids.foldlM (fun u i => approveGo actor notes now (k + 1) u i) t
          = .ok t' ∧
        (∀ w ∈ t'.commissions, ∃ w0 ∈ t.commissions, w.id = w0.id ∧
          (w0.id ∈ ids → w.state = CState.approved) ∧
          (¬ w0.id ∈ ids → w = w0)) ∧
        t'.commissions.map (fun c => c.id) = t.commissions.map (fun c => c.id) ∧
        ∃ rows, t'.approvalHistory = t.approvalHistory ++ rows ∧
          rows.length = ids.length ∧ ∀ h ∈ rows, h.action = "APPROVE" := by
  intro ids
  induction ids with
  | nil =>
    intro t _ _ _
    refine ⟨t, rfl, ?_, rfl,
      [], (List.append_nil _).symm, rfl, fun h hh => absurd hh (List.not_mem_nil _)⟩
    intro w hw
    exact ⟨w, hw, rfl, fun h => absurd h (List.not_mem_nil _), fun _ => rfl⟩
  | cons i rest ih =>
    intro t hnd hidnd hlive
    obtain ⟨z, hfz, hst, hty, hmgr, hcons⟩ := hlive i (List.mem_cons_self i rest)
    have hfz2 : t.commissions.find? (fun c => decide (c.id = i)) = some z := hfz
    have hzid : z.id = i := by simpa using List.find?_some hfz2
    have hval : validate_transition z CState.approved = .ok () :=
      validate_submitted_approved hst
    have hauth : approveAuthOk t z actor = true := admin_approveAuthOk t z actor hadmin
    have hclean :
        cleanCommission (transitionUpdate z actor CState.approved now) = .ok () :=
      clean_transitionUpdate_approved actor now
        (fun hb => absurd (hty.symm.trans hb) (by decide))
        (fun _ => hmgr)
        (fun ha => absurd (hty.symm.trans ha) (by decide)) hcons
    obtain ⟨t1, hrec, hcomm1, hhist1⟩ :=
      record_action_ok "APPROVE" actor CState.approved notes now hfz hclean
    have hne : ¬ z.commission_type = CType.base :=
      fun hb => absurd (hty.symm.trans hb) (by decide)
    have hstep : approveGo actor notes now (k + 1) t i = .ok t1 := by
      simp only [approveGo]
      rw [hfz]
      dsimp only
      rw [hval]
      dsimp only
      rw [if_pos hauth, hrec]
      dsimp only
      rw [if_neg hne]
    have hids1 : t1.commissions.map (fun c => c.id) =
        t.commissions.map (fun c => c.id) := by
      rw [hcomm1, List.map_map]
      exact List.map_congr_left
        (fun w _ => ite_transitionUpdate_id hzid actor CState.approved now w)
    have hndr : rest.Nodup := (List.nodup_cons.mp hnd).2
    have hinr : ¬ i ∈ rest := (List.nodup_cons.mp hnd).1
    have hidnd1 : (t1.commissions.map (fun c => c.id)).Nodup := by
      rw [hids1]; exact hidnd
    have hlive1 : ∀ j ∈ rest, ∃ w, findCommission t1 j = some w ∧
        w.state = CState.submitted ∧ w.commission_type = CType.override ∧
        ¬ w.manager = none ∧ ¬ actor.id = w.consultant := by
      intro j hj
      obtain ⟨zj, hfj, hstj, htyj, hmgrj, hconsj⟩ :=
        hlive j (List.mem_cons_of_mem i hj)
      have hfj2 : t.commissions.find? (fun c => decide (c.id = j)) = some zj := hfj
      have hzjid : zj.id = j := by simpa using List.find?_some hfj2
      have hji : ¬ zj.id = i := by
        rw [hzjid]; exact fun h => hinr (h ▸ hj)
      refine ⟨zj, ?_, hstj, htyj, hmgrj, hconsj⟩
      show t1.commissions.find? (fun c => decide (c.id = j)) = some zj
      rw [hcomm1, find?_comm_map
        (fun w => ite_transitionUpdate_id hzid actor CState.approved now w) j, hfj2]
      show some (if zj.id = i then transitionUpdate z actor CState.approved now
        else zj) = some zj
      rw [if_neg hji]
    obtain ⟨t', hfold, hpres, hids2, rows2, hh2, hlen2, hact2⟩ :=
      ih t1 hndr hidnd1 hlive1
    have heq : List.foldlM (fun u j => approveGo actor notes now (k + 1) u j) t
        (i :: rest) = .ok t' := by
      rw [List.foldlM_cons, hstep]
      exact hfold
    refine ⟨t', heq, ?_, hids2.trans hids1, ?_⟩
    · intro w hw
      obtain ⟨w1, hw1, hwid, hin, hout⟩ := hpres w hw
      rw [hcomm1] at hw1
      obtain ⟨w0, hw0, hfw0⟩ := List.mem_map.mp hw1
      have hw1id : w1.id = w0.id :=
        hfw0 ▸ ite_transitionUpdate_id hzid actor CState.approved now w0
      refine ⟨w0, hw0, hwid.trans hw1id, ?_, ?_⟩
      · intro hmem
        rcases List.mem_cons.mp hmem with h0 | h0
        · have hni : ¬ w1.id ∈ rest := by
            rw [hw1id, h0]; exact hinr
          rw [hout hni, ← hfw0]
          show (if w0.id = i then transitionUpdate z actor CState.approved now
            else w0).state = CState.approved
          rw [if_pos h0]
          rfl
        · exact hin (by rw [hw1id]; exact h0)
      · intro hnmem
        have hni : ¬ w0.id = i := fun h => hnmem (List.mem_cons.mpr (Or.inl h))
        have hnr : ¬ w0.id ∈ rest := fun h => hnmem (List.mem_cons.mpr (Or.inr h))
        rw [hout (by rw [hw1id]; exact hnr), ← hfw0]
        show (if w0.id = i then transitionUpdate z actor CState.approved now
          else w0) = w0
        rw [if_neg hni]
    · refine ⟨⟨i, "APPROVE", actor.id, z.state, CState.approved, notes⟩ :: rows2,
        ?_, ?_, ?_⟩
      · rw [hh2, hhist1, List.append_assoc, List.singleton_append]
      · rw [List.length_cons, hlen2, List.length_cons]
      · intro h hh
        rcases List.mem_cons.mp hh with rfl | hh2b
        · rfl
        · exact hact2 h hh2b

/-- Base commission of the cascade counterexample: submitted, earned by
carol (id 10), no manager, approval record assigning eve (id 5) as
approver. -/
def c4Base : CommissionR :=
  ⟨1, CType.base, 10, none, 0, 100, 0, 5, 5, CState.submitted, "REF-B", "",
    none, none, none, none, none, none, none, ""⟩

/-- Submitted override child of `c4Base`, earned for manager mark (id 30)
on carol's sale. -/
def c4Ovr : CommissionR :=
  ⟨2, CType.override, 10, some 30, 0, 100, 0, 2, 2, CState.submitted,
    "REF-O", "", some 1, some 1, none, none, none, none, none, ""⟩

/-- State for the cascade counterexample: eve is the assigned approver of
the base but holds no authorization over the override. -/
def c4State : St :=
  ⟨[⟨5, "eve", false, false⟩, ⟨10, "carol", false, false⟩,
      ⟨30, "mark", false, false⟩],
    [c4Base, c4Ovr], [⟨1, some 5, "MANAGER", false⟩], [], [], [], [], [], [], 7⟩

/-- The non-admin actor of the cascade counterexample. -/
def c4Actor : UserR := ⟨5, "eve", false, false⟩

/-- C4 counterexample: the cascade DOES re-check per-override
authorization.  Eve is authorized for the base (she is its assigned
approver, `approveAuthOk` is true), the base is a submitted base commission
with one submitted override child, yet `approve` fails outright: after
approving the base the recursive call re-runs the authorization guard
against the override, for which eve holds no role, and raises the
authorization error — so the base approval's authorization is NOT
sufficient for the cascade. -/
theorem C4_cascade_counterexample :
    approveAuthOk c4State c4Base c4Actor = true ∧
    findCommission c4State 1 = some c4Base ∧
    c4Base.state = CState.submitted ∧
    c4Base.commission_type = CType.base ∧
    c4Ovr.parent_commission = some 1 ∧
    c4Ovr.state = CState.submitted ∧
    approve c4State 1 c4Actor "ok" 0 = .error (.authDenied
      "Auth Denied. Admin:False, Hier:False, Expl:False, Actor:eve, Cons:carol") :=
  ⟨rfl, rfl, rfl, rfl, rfl, rfl, rfl⟩

/-- C4 (amended): the cascade of `approve` re-runs the full authorization
guard against every override, so the claim is restricted to an actor whose
authorization is global — an admin.  For an admin actor, a submitted base
commission (no manager, not self-parented, not the actor's own) with
well-formed submitted children — each an override with a manager, not
earned by the actor — `approve` succeeds, setting the base and every such
child to `approved`, and appends exactly N+1 ApprovalHistory rows, all with
action APPROVE, where N is the number of submitted children of the base. -/
theorem C4_cascade_approval (s : St) (cid : ℕ) (base : CommissionR)
    (actor : UserR) (notes : String) (now : ℤ)
    (hidnd : (s.commissions.map (fun c => c.id)).Nodup)
    (hfb : findCommission s cid = some base)
    (hst : base.state = CState.submitted)
    (hty : base.commission_type = CType.base)
    (hmgr : base.manager = none)
    (hpar : ¬ base.parent_commission = some cid)
    (hself : ¬ actor.id = base.consultant)
    (hadmin : isAdminUser actor = true)
    (hch : ∀ z ∈ s.commissions, z.parent_commission = some cid →
      z.state = CState.submitted →
      z.commission_type = CType.override ∧ ¬ z.manager = none ∧
      ¬ actor.id = z.consultant) :
    ∃ t', approve s cid actor notes now = .ok t' ∧
      (∀ w ∈ t'.commissions, w.id = cid → w.state = CState.approved) ∧
      (∀ z ∈ s.commissions, z.parent_commission = some cid →
        z.state = CState.submitted →
        ∀ w ∈ t'.commissions, w.id = z.id → w.state = CState.approved) ∧
      (∃ rows, t'.approvalHistory = s.approvalHistory ++ rows ∧
        rows.length = (s.commissions.filter (fun z =>
          decide (z.parent_commission = some cid ∧
            z.state = CState.submitted))).length + 1 ∧
        ∀ h ∈ rows, h.action = "APPROVE") := by
  have hfb2 : s.commissions.find? (fun c => decide (c.id = cid)) = some base := hfb
  have hmem : base ∈ s.commissions := List.mem_of_find?_eq_some hfb2
  have hbid : base.id = cid := by simpa using List.find?_some hfb2
  obtain ⟨k, hk⟩ : ∃ k, s.commissions.length = k + 1 := by
    cases hl : s.commissions.length with
    | zero =>
      exact absurd (List.eq_nil_of_length_eq_zero hl ▸ hmem) (List.not_mem_nil _)
    | succ n => exact ⟨n, rfl⟩
  have huniq : ∀ z ∈ s.commissions, z.id = cid → z = base := by
    intro z hz h
    have h1 := find?_id_eq_of_nodup hidnd hz
    rw [h] at h1
    exact (Option.some.inj (hfb2.symm.trans h1)).symm
  have hval : validate_transition base CState.approved = .ok () :=
    validate_submitted_approved hst
  have hauth : approveAuthOk s base actor = true :=
    admin_approveAuthOk s base actor hadmin
  have hclean :
      cleanCommission (transitionUpdate base actor CState.approved now) = .ok () :=
    clean_transitionUpdate_approved actor now (fun _ => hmgr)
      (fun ho => absurd (hty.symm.trans ho) (by decide))
      (fun ha => absurd (hty.symm.trans ha) (by decide)) hself
  obtain ⟨s1, hrec, hcomm1, hhist1⟩ :=
    record_action_ok "APPROVE" actor CState.approved notes now hfb hclean
  have hids1 : s1.commissions.map (fun c => c.id) =
      s.commissions.map (fun c => c.id) := by
    rw [hcomm1, List.map_map]
    exact List.map_congr_left
      (fun w _ => ite_transitionUpdate_id hbid actor CState.approved now w)
  have hfilter : s1.commissions.filter (fun z =>
        decide (z.parent_commission = some cid ∧ z.state = CState.submitted))
      = s.commissions.filter (fun z =>
        decide (z.parent_commission = some cid ∧ z.state = CState.submitted)) := by
    rw [hcomm1, filter_map_comm]
    have h1 : s.commissions.filter (fun z =>
          decide ((if z.id = cid then transitionUpdate base actor CState.approved
              now else z).parent_commission = some cid ∧
            (if z.id = cid then transitionUpdate base actor CState.approved now
              else z).state = CState.submitted))
        = s.commissions.filter (fun z =>
          decide (z.parent_commission = some cid ∧ z.state = CState.submitted)) := by
      apply List.filter_congr
      intro z hz
      by_cases h : z.id = cid
      · have hzb := huniq z hz h
        rw [if_pos h]
        subst hzb
        have hl : ¬ ((transitionUpdate z actor CState.approved now).parent_commission
            = some cid ∧ (transitionUpdate z actor CState.approved now).state
              = CState.submitted) := fun hc => hpar hc.1
        have hr : ¬ (z.parent_commission = some cid ∧ z.state = CState.submitted) :=
          fun hc => hpar hc.1
        rw [decide_eq_false hl, decide_eq_false hr]
      · rw [if_neg h]
    rw [h1]
    have h2 : ∀ z ∈ s.commissions.filter (fun z =>
        decide (z.parent_commission = some cid ∧ z.state = CState.submitted)),
        (if z.id = cid then transitionUpdate base actor CState.approved now
          else z) = z := by
      intro z hzf
      simp only [List.mem_filter, decide_eq_true_eq] at hzf
      obtain ⟨hzmem, hzP⟩ := hzf
      have hzcid : ¬ z.id = cid :=
        fun h => absurd ((huniq z hzmem h) ▸ hzP.1) hpar
      rw [if_neg hzcid]
    rw [List.map_congr_left h2]
    exact List.map_id' _
  have happrove : approve s cid actor notes now =
      ((s.commissions.filter (fun z =>
        decide (z.parent_commission = some cid ∧
          z.state = CState.submitted))).map (fun z => z.id)).foldlM
        (fun t i => approveGo actor
          ("Auto-approved via base " ++ base.reference_number) now (k + 1) t i)
        s1 := by
    unfold approve
    rw [hk]
    simp only [approveGo]
    rw [hfb]
    dsimp only
    rw [hval]
    dsimp only
    rw [if_pos hauth, hrec]
    dsimp only
    rw [if_pos hty, hfilter]
  have hndids : ((s.commissions.filter (fun z =>
      decide (z.parent_commission = some cid ∧
        z.state = CState.submitted))).map (fun z => z.id)).Nodup :=
    List.Sublist.nodup
      (List.Sublist.map (fun c : CommissionR => c.id)
        (List.filter_sublist s.commissions)) hidnd
  have hidnd1 : (s1.commissions.map (fun c => c.id)).Nodup := by
    rw [hids1]; exact hidnd
  have hlive : ∀ i ∈ (s.commissions.filter (fun z =>
      decide (z.parent_commission = some cid ∧
        z.state = CState.submitted))).map (fun z => z.id),
      ∃ z, findCommission s1 i = some z ∧
        z.state = CState.submitted ∧ z.commission_type = CType.override ∧
        ¬ z.manager = none ∧ ¬ actor.id = z.consultant := by
    intro i hi
    obtain ⟨z, hzf, hzi⟩ := List.mem_map.mp hi
    simp only [List.mem_filter, decide_eq_true_eq] at hzf
    obtain ⟨hzmem, hzP⟩ := hzf
    obtain ⟨hty2, hmgr2, hcons2⟩ := hch z hzmem hzP.1 hzP.2
    have hzcid : ¬ z.id = cid :=
      fun h => absurd ((huniq z hzmem h) ▸ hzP.1) hpar
    refine ⟨z, ?_, hzP.2, hty2, hmgr2, hcons2⟩
    show s1.commissions.find? (fun c => decide (c.id = i)) = some z
    have hfz : s.commissions.find? (fun c => decide (c.id = i)) = some z := by
      rw [← hzi]; exact find?_id_eq_of_nodup hidnd hzmem
    rw [hcomm1, find?_comm_map
      (fun w => ite_transitionUpdate_id hbid actor CState.approved now w) i, hfz]
    show some (if z.id = cid then transitionUpdate base actor CState.approved now
      else z) = some z
    rw [if_neg hzcid]
  obtain ⟨t', hfold, hpres, hids2, rows2, hh2, hlen2, hact2⟩ :=
    approveCascade_admin actor
      ("Auto-approved via base " ++ base.reference_number) now hadmin k
      ((s.commissions.filter (fun z =>
        decide (z.parent_commission = some cid ∧
          z.state = CState.submitted))).map (fun z => z.id))
      s1 hndids hidnd1 hlive
  have hnotin : ¬ cid ∈ (s.commissions.filter (fun z =>
      decide (z.parent_commission = some cid ∧
        z.state = CState.submitted))).map (fun z => z.id) := by
    intro hmem2
    obtain ⟨z, hzf, hzi⟩ := List.mem_map.mp hmem2
    simp only [List.mem_filter, decide_eq_true_eq] at hzf
    obtain ⟨hzmem, hzP⟩ := hzf
    exact absurd ((huniq z hzmem hzi) ▸ hzP.1) hpar
  refine ⟨t', happrove.trans hfold, ?_, ?_, ?_⟩
  · intro w hw hwcid
    obtain ⟨w1, hw1, hwid, _, hout⟩ := hpres w hw
    rw [hcomm1] at hw1
    obtain ⟨w0, hw0, hfw0⟩ := List.mem_map.mp hw1
    have hw1id : w1.id = w0.id :=
      hfw0 ▸ ite_transitionUpdate_id hbid actor CState.approved now w0
    have hw0cid : w0.id = cid := (hwid.trans hw1id).symm.trans hwcid
    rw [hout (by rw [hw1id, hw0cid]; exact hnotin), ← hfw0]
    show (if w0.id = cid then transitionUpdate base actor CState.approved now
      else w0).state = CState.approved
    rw [if_pos hw0cid]
    rfl
  · intro z hz hzpar hzst w hw hwz
    obtain ⟨w1, hw1, hwid, hin, _⟩ := hpres w hw
    rw [hcomm1] at hw1
    obtain ⟨w0, hw0, hfw0⟩ := List.mem_map.mp hw1
    have hw1id : w1.id = w0.id :=
      hfw0 ▸ ite_transitionUpdate_id hbid actor CState.approved now w0
    have hzin : z.id ∈ (s.commissions.filter (fun y =>
        decide (y.parent_commission = some cid ∧
          y.state = CState.submitted))).map (fun y => y.id) :=
      List.mem_map.mpr ⟨z, List.mem_filter.mpr ⟨hz, decide_eq_true ⟨hzpar, hzst⟩⟩,
        rfl⟩
    exact hin (by rw [hwid.symm.trans hwz]; exact hzin)
  · refine ⟨⟨cid, "APPROVE", actor.id, base.state, CState.approved, notes⟩ :: rows2,
      ?_, ?_, ?_⟩
    · rw [hh2, hhist1, List.append_assoc, List.singleton_append]
    · rw [List.length_cons, hlen2, List.length_map]
    · intro h hh
      rcases List.mem_cons.mp hh with rfl | hh2b
      · rfl
      · exact hact2 h hh2b

/-- An admin actor (staff flag set) for the cascade witness. -/
def c4Admin : UserR := ⟨9, "root", true, false⟩

/-- Witness for C4: an admin approves the sample base with its one
submitted override child. -/
theorem C4_cascade_approval_witness :
    ∃ t', approve c4State 1 c4Admin "man" 0 = .ok t' ∧
      (∀ w ∈ t'.commissions, w.id = 1 → w.state = CState.approved) ∧
      (∀ z ∈ c4State.commissions, z.parent_commission = some 1 →
        z.state = CState.submitted →
        ∀ w ∈ t'.commissions, w.id = z.id → w.state = CState.approved) ∧
      (∃ rows, t'.approvalHistory = c4State.approvalHistory ++ rows ∧
        rows.length = (c4State.commissions.filter (fun z =>
          decide (z.parent_commission = some 1 ∧
            z.state = CState.submitted))).length + 1 ∧
        ∀ h ∈ rows, h.action = "APPROVE") :=
  C4_cascade_approval c4State 1 c4Base c4Admin "man" 0 (by decide) rfl rfl rfl
    rfl (by decide) (by decide) rfl (by decide)

end OneSuite
